import Mathlib

/-!
# Load balancer: backend selection, health bookkeeping and request relay

A shallow embedding of the C++ sources `lb_config.h`, `lb_config.cpp`, `lb_algorithm.cpp`,
`health_check.cpp` and `lb.cpp`, followed by theorems about it.

Conventions of the embedding:

* `vector<BackendServer>` is a `List BackendServer`; a `BackendServer*` into the
  vector is the position it points at (`some i` for `&backends[i]`, `none` for
  `nullptr`);
* `size_t` is `Nat` (the cursor is always reduced modulo the pool size, so no
  wrap-around is involved); an `int` is the `Int` it holds, and the increment of the
  failure counter is reduced to the 32 bits of an `int` by `wrap_int32`;
* a finite `double` is the rational `ℚ` it denotes: comparisons are the comparisons
  of the rationals, and the result of every operation of the moving average is
  rounded by the parameter `round` of `update_backend_health`, which is `to_double`
  (IEEE 754 binary64, to nearest, ties to even) for the compiled code and
  `exact_arithmetic` where a property is about arithmetic taken exactly;
* reading `backends[i]` outside the vector is undefined in C++; the embedding
  returns `none` in the outer `Option` there;
* a `string` is a `String`, or the list of its characters where the code works on
  positions (`size_t` arithmetic on positions is taken modulo `2^64`); a thrown
  `runtime_error` is `Except.error` with its message.
-/

namespace LoadBalancer

/-! ## Data model (`lb_config.h`) -/

/-- The struct `BackendServer`; `last_check` is a steady-clock reading in ticks. -/
structure BackendServer where
  ip : String
  port : Int
  id : Int
  healthy : Bool
  avg_rtt_ms : ℚ
  consecutive_failures : Int
  last_check : Nat
deriving DecidableEq

/-- The constructor `BackendServer(int server_id, string server_ip, int server_port)`. -/
def BackendServer.create (server_id : Int) (server_ip : String) (server_port : Int) :
    BackendServer :=
  { ip := server_ip, port := server_port, id := server_id,
    healthy := true, avg_rtt_ms := 0, consecutive_failures := 0, last_check := 0 }

/-- Health flag read through a position of the pool (`false` outside the pool). -/
def healthyAt (backends : List BackendServer) (i : Nat) : Bool :=
  match backends[i]? with
  | some backend => backend.healthy
  | none => false

/-- Identifier read through a returned pointer (`none` for `nullptr` or a dangling position). -/
def idOf (backends : List BackendServer) (ptr : Option Nat) : Option Int :=
  match ptr with
  | some i => (backends[i]?).map BackendServer.id
  | none => none

/-! ## Round robin (`lb_algorithm.cpp`) -/

/-- The state of a `RoundRobinLB` object: its cursor. The constructor sets it to `0`. -/
structure RoundRobinLB where
  current_index : Nat
deriving DecidableEq

/-- The constructor `RoundRobinLB::RoundRobinLB`. -/
def RoundRobinLB.create : RoundRobinLB := ⟨0⟩

/-- The `while (attempts < backends.size())` loop of `RoundRobinLB::select_backend`.
`remaining` is `backends.size() - attempts`, the number of iterations left.
Result `some (some i, ci)`: the loop returned `&backends[i]` with the cursor left at `ci`;
`some (none, ci)`: the loop ran to its end; `none`: a read outside the vector. -/
def RoundRobinLB.scan (backends : List BackendServer) :
    Nat → Nat → Option (Option Nat × Nat)
  | 0, current_index => some (none, current_index)
  | remaining + 1, current_index =>
    match backends[current_index]? with
    | none => none
    | some backend =>
      if backend.healthy then
        some (some current_index, (current_index + 1) % backends.length)
      else
        RoundRobinLB.scan backends remaining ((current_index + 1) % backends.length)

/-- The method `RoundRobinLB::select_backend`: the returned pointer and the object afterwards. -/
def RoundRobinLB.select_backend (backends : List BackendServer) (lb : RoundRobinLB) :
    Option (Option Nat × RoundRobinLB) :=
  if backends.isEmpty then
    some (none, lb)
  else
    let start_index := lb.current_index
    match RoundRobinLB.scan backends backends.length lb.current_index with
    | none => none
    | some (some i, current_index) => some (some i, ⟨current_index⟩)
    | some (none, _) =>
      some (some start_index, ⟨(start_index + 1) % backends.length⟩)

/-- Consecutive calls of `select_backend` on an unchanged pool: the pointers returned, in
order, and the object after the last call. -/
def RoundRobinLB.select_n (backends : List BackendServer) :
    Nat → RoundRobinLB → Option (List (Option Nat) × RoundRobinLB)
  | 0, lb => some ([], lb)
  | n + 1, lb =>
    match RoundRobinLB.select_backend backends lb with
    | none => none
    | some (r, lb1) =>
      match RoundRobinLB.select_n backends n lb1 with
      | none => none
      | some (rs, lb2) => some (r :: rs, lb2)

/-- Cursors reachable from a fresh object by calls of `select_backend` on pools of `n`
backends (the pool is fixed at start-up; only its health fields change between calls). -/
inductive RoundRobinLB.Reachable (n : Nat) : RoundRobinLB → Prop
  | fresh : RoundRobinLB.Reachable n RoundRobinLB.create
  | call (backends : List BackendServer) (lb lb1 : RoundRobinLB) (r : Option Nat) :
      RoundRobinLB.Reachable n lb → backends.length = n →
      RoundRobinLB.select_backend backends lb = some (r, lb1) →
      RoundRobinLB.Reachable n lb1

/-! ## Least response time (`lb_algorithm.cpp`) -/

/-- The constant `numeric_limits<double>::max()`, the largest finite double. -/
def DBL_MAX : ℚ := (2 ^ 53 - 1) * 2 ^ 971

/-- The `for (auto &backend : backends)` loop of `LeastResponseTimeLB::select_backend`, over the
backends not yet visited; `i` is the position of the first of them, and `best`, `min_rtt`
are the loop's variables. Returns `best` after the loop. -/
def LeastResponseTimeLB.scan :
    List BackendServer → Nat → Option Nat → ℚ → Option Nat
  | [], _, best, _ => best
  | backend :: rest, i, best, min_rtt =>
    if backend.healthy && decide (backend.avg_rtt_ms < min_rtt) then
      LeastResponseTimeLB.scan rest (i + 1) (some i) backend.avg_rtt_ms
    else
      LeastResponseTimeLB.scan rest (i + 1) best min_rtt

/-- The method `LeastResponseTimeLB::select_backend` (the object has no state of its own). -/
def LeastResponseTimeLB.select_backend (backends : List BackendServer) : Option Nat :=
  if backends.isEmpty then
    none
  else
    match LeastResponseTimeLB.scan backends 0 none DBL_MAX with
    | some i => some i
    | none => some 0

/-! ## Machine arithmetic -/

/-- The constant `INT_MAX` of a 32-bit `int`. -/
def INT_MAX : Int := 2147483647

/-- The value that a 32-bit two's-complement `int` holds for the mathematical result `x` of an
operation: the result modulo `2^32`, in `-2^31 .. 2^31 - 1`. (The C++ standard leaves signed
overflow undefined; the compiled increment wraps.) -/
def wrap_int32 (x : Int) : Int := (x + 2147483648) % 4294967296 - 2147483648

/-- Rounding of a rational to the nearest integer, ties to the even one. -/
def round_half_even (q : ℚ) : ℤ :=
  if q - ⌊q⌋ < 1 / 2 then ⌊q⌋
  else if 1 / 2 < q - ⌊q⌋ then ⌊q⌋ + 1
  else if ⌊q⌋ % 2 = 0 then ⌊q⌋
  else ⌊q⌋ + 1

/-- The binary exponent of a non-zero rational: the `e` with `2^e ≤ |x| < 2^(e+1)`. -/
def binade (x : ℚ) : ℤ := Int.log 2 |x|

/-- The IEEE 754 binary64 value of the exact result `x` of one operation, in the default
rounding mode (to nearest, ties to even): 53 significant bits, and multiples of `2^-1074`
below the normal range. A result beyond the largest finite double, for which the code would
hold an infinity, is rounded in the same way; the moving average of clock samples stays far
below it. -/
def to_double (x : ℚ) : ℚ :=
  if x = 0 then 0
  else
    round_half_even (x / 2 ^ (max (binade x) (-1022) - 52)) *
      2 ^ (max (binade x) (-1022) - 52)

/-- Arithmetic without rounding, over the rationals. -/
def exact_arithmetic (x : ℚ) : ℚ := x

/-! ## Health bookkeeping (`health_check.h`, `health_check.cpp`) -/

/-- The member constant `HealthChecker::HEALTH_TIMEOUT_MS`. -/
def HealthChecker.HEALTH_TIMEOUT_MS : Int := 1000

/-- The member constant `HealthChecker::MAX_CONSECUTIVE_FAILURES`. -/
def HealthChecker.MAX_CONSECUTIVE_FAILURES : Int := 3

/-- The member constant `HealthChecker::RTT_ALPHA`, the literal `0.3` as the arithmetic holds
it: `round` gives the value held for an exact result. -/
def HealthChecker.RTT_ALPHA (round : ℚ → ℚ) : ℚ := round (3 / 10)

/-- The method `HealthChecker::update_backend_health`; `now` is the value that
`chrono::steady_clock::now()` returns in the call, and `round` gives the value that a
`double` holds for the exact result of one operation (`to_double` for the compiled code). -/
def HealthChecker.update_backend_health (round : ℚ → ℚ) (now : Nat) (backend : BackendServer)
    (success : Bool) (rtt_ms : ℚ) : BackendServer :=
  let backend := { backend with last_check := now }
  if success then
    let backend := { backend with consecutive_failures := 0, healthy := true }
    if backend.avg_rtt_ms = 0 then
      { backend with avg_rtt_ms := rtt_ms }
    else
      { backend with
        avg_rtt_ms := round (round (HealthChecker.RTT_ALPHA round * rtt_ms)
          + round (round (1 - HealthChecker.RTT_ALPHA round) * backend.avg_rtt_ms)) }
  else
    let backend :=
      { backend with consecutive_failures := wrap_int32 (backend.consecutive_failures + 1) }
    if backend.consecutive_failures ≥ HealthChecker.MAX_CONSECUTIVE_FAILURES then
      { backend with healthy := false }
    else
      backend

/-- One probe outcome as `HealthChecker::run` hands it to `update_backend_health`: the clock
reading of the call, the result of `send_health_check` and the measured round-trip time. -/
structure Probe where
  now : Nat
  success : Bool
  rtt_ms : ℚ
deriving DecidableEq

/-- Consecutive calls of `update_backend_health` on one backend record, oldest probe first. -/
def HealthChecker.apply_probes (round : ℚ → ℚ) (backend : BackendServer) :
    List Probe → BackendServer
  | [] => backend
  | p :: ps =>
    HealthChecker.apply_probes round
      (HealthChecker.update_backend_health round p.now backend p.success p.rtt_ms) ps

/-- The closed form that the specification gives for the moving average after `k` successful
samples of value `r`, starting from `avg0`, with smoothing factor `a`. -/
def ema_closed_form (a avg0 r : ℚ) (k : Nat) : ℚ :=
  r * (1 - (1 - a) ^ k) + avg0 * (1 - a) ^ k

/-! ## Strategy dispatch (`lb_algorithm.h`) -/

/-- The two classes behind an `LBAlgorithm*`, each with its own state. -/
inductive LBAlgorithm where
  | round_robin (lb : RoundRobinLB)
  | least_response_time
deriving DecidableEq

/-- The virtual call `lb_algo->select_backend()`. -/
def LBAlgorithm.select_backend (backends : List BackendServer) :
    LBAlgorithm → Option (Option Nat × LBAlgorithm)
  | .round_robin lb =>
    match RoundRobinLB.select_backend backends lb with
    | none => none
    | some (r, lb1) => some (r, .round_robin lb1)
  | .least_response_time =>
    some (LeastResponseTimeLB.select_backend backends, .least_response_time)

/-! ## Request relay (`lb.cpp`)

Input and output are embedded by explicit state passing over a `World`: every call that
leaves the process appends an `Event` to `World.trace`, and what the outside answers (whether
the call succeeded, the line received, the descriptor created) is read from `World.oracle` at
the position of the call in the trace. Console output (`cout`, `cerr`) is not recorded. -/

/-- Modelled from the spec: the enumeration `RequestType` of the header `protocol.h`, which is
not among the sources; "`type` ∈ {PUT, GET}". -/
inductive RequestType where
  | PUT
  | GET
deriving DecidableEq

/-- Modelled from the spec: the struct `Request` of the header `protocol.h`, which is not among
the sources, with the fields that `lb.cpp` reads; "`type`, `filename`, and for PUT, `fileSize`
and payload content". -/
structure Request where
  type : RequestType
  filename : String
  file_size : Nat
  file_lines : List String
deriving DecidableEq

/-- The string constants of the header `protocol.h`, which is not among the sources; they are
a parameter of the relay. -/
structure Protocol where
  PROTOCOL_PUT : String
  PROTOCOL_GET : String
  PROTOCOL_SIZE : String
  PROTOCOL_OK : String
  PROTOCOL_ERROR : String

/-- One line of the metrics log, as `log_request` writes it. -/
structure MetricsLine where
  timestamp_ms : Nat
  request_type : String
  backend_selected : Int
  response_time_ms : Int
deriving DecidableEq

/-- The calls that leave the process, with their arguments. -/
inductive Event where
  | parse_request (sock : Int)
  | send_line (sock : Int) (line : String)
  | recv_line (sock : Int)
  | send_file (sock : Int) (lines : List String) (chunk : Nat)
  | recv_file (sock : Int) (size : Nat)
  | socket
  | connect (sock : Int) (ip : String) (port : Int)
  | close (sock : Int)
deriving DecidableEq

/-- What the outside answers to one call: only the fields that the call reads are used. -/
structure Answer where
  ok : Bool
  fd : Int
  line : String
  lines : List String
  request : Request
  steady_now : Int
  system_now : Nat
  scanned_size : Nat

/-- The state that `handle_client` works on: the calls made so far, the answers of the
outside, the shared pool, the strategy object and the metrics file. -/
structure World where
  trace : List Event
  oracle : Nat → Answer
  backends : List BackendServer
  lb_algo : LBAlgorithm
  lb_metrics_open : Bool
  lb_metrics_file : List MetricsLine

/-- The answer of the outside to the next call. -/
def World.answer (w : World) : Answer := w.oracle w.trace.length

/-- Record a call. -/
def World.emit (w : World) (e : Event) : World := { w with trace := w.trace ++ [e] }

/-- Modelled from the spec: the function `parse_request`, declared in the header `protocol.h`
that is not among the sources; "read and parse a client request". An outside call: `none`
when it returns `false`, the parsed request otherwise. -/
def parse_request (sock : Int) (w : World) : Option Request × World :=
  ((if w.answer.ok then some w.answer.request else none), w.emit (.parse_request sock))

/-- Modelled from the spec: the function `send_line` of the missing header `protocol.h`, which
sends one line on a socket. An outside call; its result is whether the line was sent. -/
def send_line (sock : Int) (line : String) (w : World) : Bool × World :=
  (w.answer.ok, w.emit (.send_line sock line))

/-- Modelled from the spec: the function `recv_line` of the missing header `protocol.h`, which
reads one line from a socket. An outside call; its result is success and the line read. -/
def recv_line (sock : Int) (w : World) : (Bool × String) × World :=
  ((w.answer.ok, w.answer.line), w.emit (.recv_line sock))

/-- Modelled from the spec: the function `send_file` of the missing header `protocol.h`, which
sends payload content on a socket. An outside call; its result is whether it was sent. -/
def send_file (sock : Int) (lines : List String) (chunk : Nat) (w : World) : Bool × World :=
  (w.answer.ok, w.emit (.send_file sock lines chunk))

/-- Modelled from the spec: the function `recv_file` of the missing header `protocol.h`, which
reads the declared amount of payload content from a socket. An outside call; its result is
success and the lines read. -/
def recv_file (sock : Int) (size : Nat) (w : World) : (Bool × List String) × World :=
  ((w.answer.ok, w.answer.lines), w.emit (.recv_file sock size))

/-- The system call `close`. -/
def close (sock : Int) (w : World) : World := w.emit (.close sock)

/-- The function `log_request`; the time stamp is the system clock's reading. -/
def log_request (request_type : String) (backend_id : Int) (response_time_ms : Int)
    (w : World) : World :=
  if !w.lb_metrics_open then
    w
  else
    { w with
      lb_metrics_file := w.lb_metrics_file ++
        [{ timestamp_ms := w.answer.system_now, request_type := request_type,
           backend_selected := backend_id, response_time_ms := response_time_ms }] }

/-- The function `connect_to_backend`: the connected descriptor, or `-1`. -/
def connect_to_backend (backend : BackendServer) (w : World) : Int × World :=
  let sock := w.answer.fd
  let w := w.emit .socket
  if sock < 0 then
    (-1, w)
  else
    let connected := w.answer.ok
    let w := w.emit (.connect sock backend.ip backend.port)
    if !connected then
      (-1, close sock w)
    else
      (sock, w)

/-- The function `forward_put_request`. -/
def forward_put_request (P : Protocol) (client_sock backend_sock : Int) (request : Request)
    (w : World) : Bool × World :=
  let (sent, w) := send_line backend_sock (P.PROTOCOL_PUT ++ " " ++ request.filename) w
  if !sent then (false, w) else
  let (sent, w) := send_line backend_sock
    (P.PROTOCOL_SIZE ++ " " ++ toString request.file_size) w
  if !sent then (false, w) else
  let (sent, w) := send_file backend_sock request.file_lines 10 w
  if !sent then (false, w) else
  let ((received, response), w) := recv_line backend_sock w
  if !received then (false, w) else
  send_line client_sock response w

/-- The function `forward_get_request`; `scanned_size` is what `sscanf` leaves in
`file_size`. -/
def forward_get_request (P : Protocol) (client_sock backend_sock : Int) (request : Request)
    (w : World) : Bool × World :=
  let (sent, w) := send_line backend_sock (P.PROTOCOL_GET ++ " " ++ request.filename) w
  if !sent then (false, w) else
  let ((received, response), w) := recv_line backend_sock w
  if !received then (false, w) else
  let (sent, w) := send_line client_sock response w
  if !sent then (false, w) else
  if response ≠ P.PROTOCOL_OK then (false, w) else
  let ((received, size_line), w) := recv_line backend_sock w
  if !received then (false, w) else
  let (sent, w) := send_line client_sock size_line w
  if !sent then (false, w) else
  let file_size := w.answer.scanned_size
  let ((received, lines), w) := recv_file backend_sock file_size w
  if !received then (false, w) else
  send_file client_sock lines 10 w

/-- The function `handle_client`. The result is `none` when the strategy, or the relay through
the pointer it got, reads outside the pool. Times are clock readings in whole ticks. -/
def handle_client (P : Protocol) (client_sock : Int) (w : World) : Option World :=
  let request_start := w.answer.steady_now
  let (parsed, w) := parse_request client_sock w
  match parsed with
  | none =>
    let (_, w) := send_line client_sock (P.PROTOCOL_ERROR ++ " Malformed request") w
    some (close client_sock w)
  | some request =>
    match LBAlgorithm.select_backend w.backends w.lb_algo with
    | none => none
    | some (selected, lb_algo) =>
      let w := { w with lb_algo := lb_algo }
      match selected with
      | none =>
        let (_, w) := send_line client_sock (P.PROTOCOL_ERROR ++ " No backend available") w
        some (close client_sock w)
      | some i =>
        match w.backends[i]? with
        | none => none
        | some backend =>
        let (backend_sock, w) := connect_to_backend backend w
        if backend_sock < 0 then
          let (_, w) := send_line client_sock (P.PROTOCOL_ERROR ++ " Backend unavailable") w
          some (close client_sock w)
        else
          let (_, w) :=
            match request.type with
            | .PUT => forward_put_request P client_sock backend_sock request w
            | .GET => forward_get_request P client_sock backend_sock request w
          let request_end := w.answer.steady_now
          let response_time_ms := request_end - request_start
          let req_type := if request.type = .PUT then "PUT" else "GET"
          let w := log_request req_type backend.id response_time_ms w
          let w := close backend_sock w
          some (close client_sock w)

/-! ## Algorithm names (`lb_algorithm.h`, `lb_algorithm.cpp`)

A C++ `string` is a Lean `String`, or the list of its characters where the code works on
positions. A thrown `runtime_error` is `Except.error` with the message of the exception. -/

/-- The enumeration `LBAlgorithmType`. -/
inductive LBAlgorithmType where
  | ROUND_ROBIN
  | LEAST_RESPONSE_TIME
deriving DecidableEq

/-- The function `::tolower` in the C locale (the program never sets another one). -/
def tolower (c : Char) : Char :=
  if 65 ≤ c.toNat ∧ c.toNat ≤ 90 then Char.ofNat (c.toNat + 32) else c

/-- The call `transform(lower.begin(), lower.end(), lower.begin(), ::tolower)` on a copy of
the string. -/
def lower_cased (str : String) : String := ⟨str.data.map tolower⟩

/-- The function `parse_lb_algorithm`. -/
def parse_lb_algorithm (algo_str : String) : Except String LBAlgorithmType :=
  let lower := lower_cased algo_str
  if lower = "rr" ∨ lower = "roundrobin" ∨ lower = "round_robin" then
    .ok .ROUND_ROBIN
  else if lower = "lrt" ∨ lower = "least_response_time" ∨ lower = "leastresponsetime" then
    .ok .LEAST_RESPONSE_TIME
  else
    .error ("Invalid LB algorithm: " ++ algo_str ++ " (must be rr or lrt)")

/-! ## Configuration loader (`lb_config.h`, `lb_config.cpp`) -/

/-- The struct `LBConfig`. -/
structure LBConfig where
  lb_ip : String
  lb_port : Int
  backends : List BackendServer
deriving DecidableEq

/-- The default constructor `LBConfig()`. -/
def LBConfig.create : LBConfig := { lb_ip := "127.0.0.1", lb_port := 8000, backends := [] }

/-- The method `string::find`: the position of the first occurrence of `pat` in the rest of
the string, whose first character has position `pos`; `none` stands for `npos`. -/
def find (pat : List Char) : List Char → Nat → Option Nat
  | [], pos => if pat = [] then some pos else none
  | c :: rest, pos =>
    if pat.isPrefixOf (c :: rest) then some pos else find pat rest (pos + 1)

/-- The test `line.find(key) != string::npos`. -/
def mentions (key line : List Char) : Bool := (find key line 0).isSome

/-- The function `std::to_string` on a non-negative `int`. -/
def to_string (i : Nat) : List Char := Nat.toDigits 10 i

/-- The local `server_ip_key` of the loop over the four backend slots. -/
def server_ip_key (i : Nat) : List Char := "server".data ++ to_string i ++ "_ip".data

/-- The local `server_port_key` of the loop over the four backend slots. -/
def server_port_key (i : Nat) : List Char := "server".data ++ to_string i ++ "_port".data

/-- The local variables of `parse_lb_config` that the loop over the lines updates;
`lb_ip` and `lb_port` are the fields of the local `config`. -/
structure ParseState where
  lb_ip : String
  lb_port : Int
  found_lb_ip : Bool
  found_lb_port : Bool
  backend_ips : List String
  backend_ports : List Int
  found_backends : List Bool
deriving DecidableEq

/-- The local variables of `parse_lb_config` before the first line is read. -/
def ParseState.create : ParseState :=
  { lb_ip := LBConfig.create.lb_ip, lb_port := LBConfig.create.lb_port,
    found_lb_ip := false, found_lb_port := false,
    backend_ips := List.replicate 4 "", backend_ports := List.replicate 4 0,
    found_backends := List.replicate 4 false }

/-- Whether the loop reads the trimmed line as a port line, that is, hands it to
`extract_int_value`: it does not mention `lb_ip`, and it mentions `lb_port` or, for one of
the four slots, the slot's port key without its address key. -/
def reads_port (line : List Char) : Prop :=
  mentions "lb_ip".data line = false ∧
    (mentions "lb_port".data line = true ∨
      ∃ i ∈ [1, 2, 3, 4],
        mentions (server_ip_key i) line = false ∧ mentions (server_port_key i) line = true)

/-- Whether a line is read as a port line can be computed. -/
instance reads_port_decidable (line : List Char) : Decidable (reads_port line) := by
  unfold reads_port
  exact inferInstance

/-! ## Concrete pools used as examples -/

/-- The pool of scenario A: ids `[1,2,3,4]`, all healthy, as the configuration loader builds
it. -/
def pool_1234 : List BackendServer :=
  [BackendServer.create 1 "10.0.0.1" 9001, BackendServer.create 2 "10.0.0.2" 9002,
   BackendServer.create 3 "10.0.0.3" 9003, BackendServer.create 4 "10.0.0.4" 9004]

/-- The pool of scenario D after backend 3 has been demoted. -/
def pool_3_down : List BackendServer :=
  [BackendServer.create 1 "10.0.0.1" 9001, BackendServer.create 2 "10.0.0.2" 9002,
   { BackendServer.create 3 "10.0.0.3" 9003 with healthy := false, consecutive_failures := 3 },
   BackendServer.create 4 "10.0.0.4" 9004]

/-- A pool of three backends, all demoted, with different averages. -/
def pool_all_down : List BackendServer :=
  [{ BackendServer.create 1 "10.0.0.1" 9001 with
      healthy := false, consecutive_failures := 3, avg_rtt_ms := 30 },
   { BackendServer.create 2 "10.0.0.2" 9002 with
      healthy := false, consecutive_failures := 4, avg_rtt_ms := 10 },
   { BackendServer.create 3 "10.0.0.3" 9003 with
      healthy := false, consecutive_failures := 3, avg_rtt_ms := 20 }]

/-- The pool of scenario B: backend 2 has `avg_rtt_ms = 50`, the others `100`, all healthy. -/
def pool_scenario_B : List BackendServer :=
  [{ BackendServer.create 1 "10.0.0.1" 9001 with avg_rtt_ms := 100 },
   { BackendServer.create 2 "10.0.0.2" 9002 with avg_rtt_ms := 50 },
   { BackendServer.create 3 "10.0.0.3" 9003 with avg_rtt_ms := 100 },
   { BackendServer.create 4 "10.0.0.4" 9004 with avg_rtt_ms := 100 }]

/-- A pool whose only healthy backend has the largest finite double as its average. -/
def pool_rtt_at_max : List BackendServer :=
  [{ BackendServer.create 1 "10.0.0.1" 9001 with healthy := false, consecutive_failures := 3 },
   { BackendServer.create 2 "10.0.0.2" 9002 with avg_rtt_ms := DBL_MAX }]

/-- A backend record with a positive average, as after some successful probes. -/
def backend_avg_100 : BackendServer :=
  { BackendServer.create 2 "10.0.0.2" 9002 with avg_rtt_ms := 100, last_check := 5 }

/-- The tokens of the wire protocol as the specification's table gives them. -/
def protocol_tokens : Protocol :=
  { PROTOCOL_PUT := "PUT", PROTOCOL_GET := "GET", PROTOCOL_SIZE := "SIZE",
    PROTOCOL_OK := "OK", PROTOCOL_ERROR := "ERROR" }

/-- An outside that lets `parse_request` fail and every other call succeed. -/
def oracle_bad_request : Nat → Answer := fun n =>
  { ok := decide (n ≠ 0), fd := 9, line := "OK", lines := [],
    request := { type := .GET, filename := "", file_size := 0, file_lines := [] },
    steady_now := n, system_now := n, scanned_size := 0 }

/-- A freshly started load balancer (round robin over the pool of scenario A, metrics file
open with one earlier line) facing a client whose request does not parse. -/
def world_bad_request : World :=
  { trace := [], oracle := oracle_bad_request, backends := pool_1234,
    lb_algo := .round_robin ⟨2⟩, lb_metrics_open := true,
    lb_metrics_file := [{ timestamp_ms := 0, request_type := "GET", backend_selected := 2,
                          response_time_ms := 4 }] }

theorem healthyAt_eq_true {backends : List BackendServer} {i : Nat}
    (h : healthyAt backends i = true) :
    ∃ backend, backends[i]? = some backend ∧ backend.healthy = true := by
  unfold healthyAt at h
  cases hb : backends[i]? with
  | none => simp [hb] at h
  | some backend => exact ⟨backend, rfl, by simpa [hb] using h⟩

theorem healthyAt_eq_false {backends : List BackendServer} {i : Nat}
    (hi : i < backends.length) (h : healthyAt backends i = false) :
    ∃ backend, backends[i]? = some backend ∧ backend.healthy = false := by
  unfold healthyAt at h
  rw [List.getElem?_eq_getElem hi] at h
  exact ⟨backends[i], List.getElem?_eq_getElem hi, by simpa using h⟩

theorem healthyAt_lt {backends : List BackendServer} {i : Nat}
    (h : healthyAt backends i = true) : i < backends.length := by
  obtain ⟨b, hb, _⟩ := healthyAt_eq_true h
  exact (List.getElem?_eq_some.mp hb).1

theorem succ_mod_add (ci d n : Nat) : ((ci + 1) % n + d) % n = (ci + (d + 1)) % n := by
  rw [Nat.mod_add_mod]
  congr 1
  omega

/-- The scan stops at the first healthy backend it meets. -/
theorem RoundRobinLB.scan_found (backends : List BackendServer) :
    ∀ (d remaining ci : Nat), ci < backends.length → d < remaining →
      healthyAt backends ((ci + d) % backends.length) = true →
      (∀ e, e < d → healthyAt backends ((ci + e) % backends.length) = false) →
      RoundRobinLB.scan backends remaining ci =
        some (some ((ci + d) % backends.length),
          ((ci + d) % backends.length + 1) % backends.length) := by
  intro d
  induction d with
  | zero =>
    intro remaining ci hci hr hd _
    obtain ⟨r, rfl⟩ : ∃ r, remaining = r + 1 := ⟨remaining - 1, by omega⟩
    simp only [Nat.add_zero, Nat.mod_eq_of_lt hci] at hd ⊢
    obtain ⟨b, hb, hh⟩ := healthyAt_eq_true hd
    simp [RoundRobinLB.scan, hb, hh]
  | succ d ih =>
    intro remaining ci hci hr hd hbefore
    obtain ⟨r, rfl⟩ : ∃ r, remaining = r + 1 := ⟨remaining - 1, by omega⟩
    have h0 := hbefore 0 (Nat.succ_pos d)
    rw [Nat.add_zero, Nat.mod_eq_of_lt hci] at h0
    obtain ⟨b, hb, hh⟩ := healthyAt_eq_false hci h0
    have hN : 0 < backends.length := by omega
    have hstep := ih r ((ci + 1) % backends.length) (Nat.mod_lt _ hN) (by omega)
      (by rw [succ_mod_add]; exact hd)
      (fun e he => by rw [succ_mod_add]; exact hbefore (e + 1) (by omega))
    rw [succ_mod_add] at hstep
    simp [RoundRobinLB.scan, hb, hh, hstep]

/-- The scan runs to its end when it meets no healthy backend. -/
theorem RoundRobinLB.scan_none (backends : List BackendServer) :
    ∀ (remaining ci : Nat), ci < backends.length →
      (∀ e, e < remaining → healthyAt backends ((ci + e) % backends.length) = false) →
      RoundRobinLB.scan backends remaining ci =
        some (none, (ci + remaining) % backends.length) := by
  intro remaining
  induction remaining with
  | zero =>
    intro ci hci _
    simp [RoundRobinLB.scan, Nat.mod_eq_of_lt hci]
  | succ r ih =>
    intro ci hci hall
    have h0 := hall 0 (Nat.succ_pos r)
    rw [Nat.add_zero, Nat.mod_eq_of_lt hci] at h0
    obtain ⟨b, hb, hh⟩ := healthyAt_eq_false hci h0
    have hN : 0 < backends.length := by omega
    have hstep := ih ((ci + 1) % backends.length) (Nat.mod_lt _ hN)
      (fun e he => by rw [succ_mod_add]; exact hall (e + 1) (by omega))
    rw [succ_mod_add] at hstep
    simp [RoundRobinLB.scan, hb, hh, hstep]

/-- A call that finds a healthy backend `d` steps after the cursor. -/
theorem RoundRobinLB.select_backend_found (backends : List BackendServer) (c d : Nat)
    (hc : c < backends.length) (hd : d < backends.length)
    (hh : healthyAt backends ((c + d) % backends.length) = true)
    (hbefore : ∀ e, e < d → healthyAt backends ((c + e) % backends.length) = false) :
    RoundRobinLB.select_backend backends ⟨c⟩ =
      some (some ((c + d) % backends.length),
        ⟨((c + d) % backends.length + 1) % backends.length⟩) := by
  have hne : backends ≠ [] := by
    intro h
    simp [h] at hc
  simp [RoundRobinLB.select_backend, hne,
    RoundRobinLB.scan_found backends d backends.length c hc hd hh hbefore]

/-- A call on a pool without a healthy backend. -/
theorem RoundRobinLB.select_backend_fallback (backends : List BackendServer) (c : Nat)
    (hc : c < backends.length)
    (hall : ∀ i, i < backends.length → healthyAt backends i = false) :
    RoundRobinLB.select_backend backends ⟨c⟩ =
      some (some c, ⟨(c + 1) % backends.length⟩) := by
  have hne : backends ≠ [] := by
    intro h
    simp [h] at hc
  have hN : 0 < backends.length := by omega
  simp [RoundRobinLB.select_backend, hne,
    RoundRobinLB.scan_none backends backends.length c hc
      (fun e _ => hall _ (Nat.mod_lt _ hN))]

theorem healthyAt_of_all_healthy {backends : List BackendServer}
    (hall : ∀ b ∈ backends, b.healthy = true) {i : Nat} (hi : i < backends.length) :
    healthyAt backends i = true := by
  unfold healthyAt
  rw [List.getElem?_eq_getElem hi]
  exact hall _ (List.getElem_mem hi)

theorem healthyAt_of_all_unhealthy {backends : List BackendServer}
    (hall : ∀ b ∈ backends, b.healthy = false) (i : Nat) :
    healthyAt backends i = false := by
  unfold healthyAt
  cases hb : backends[i]? with
  | none => rfl
  | some b => exact hall b (List.getElem?_mem hb)

/-- Some offset from the cursor reaches any given position of the pool. -/
theorem exists_offset (n c j : Nat) (hc : c < n) (hj : j < n) :
    ∃ e, e < n ∧ (c + e) % n = j := by
  refine ⟨(j + n - c) % n, Nat.mod_lt _ (by omega), ?_⟩
  rw [Nat.add_mod_mod]
  have : c + (j + n - c) = j + n := by omega
  rw [this, Nat.add_mod_right, Nat.mod_eq_of_lt hj]

/-- With a healthy backend in the pool there is a first healthy one after the cursor. -/
theorem exists_first_healthy (backends : List BackendServer) (c : Nat)
    (hc : c < backends.length) (hex : ∃ b ∈ backends, b.healthy = true) :
    ∃ d, d < backends.length ∧ healthyAt backends ((c + d) % backends.length) = true ∧
      ∀ e, e < d → healthyAt backends ((c + e) % backends.length) = false := by
  obtain ⟨b, hb, hh⟩ := hex
  obtain ⟨j, hj, hbj⟩ := List.getElem_of_mem hb
  obtain ⟨e, he, hej⟩ := exists_offset backends.length c j hc hj
  have hP : ∃ d, healthyAt backends ((c + d) % backends.length) = true := by
    refine ⟨e, ?_⟩
    rw [hej]
    unfold healthyAt
    rw [List.getElem?_eq_getElem hj, hbj]
    exact hh
  refine ⟨Nat.find hP, ?_, Nat.find_spec hP, ?_⟩
  · exact lt_of_le_of_lt (Nat.find_min' hP (by
      rw [hej]
      unfold healthyAt
      rw [List.getElem?_eq_getElem hj, hbj]
      exact hh)) he
  · intro k hk
    have := Nat.find_min hP hk
    simpa using this

/-- Every call on a non-empty pool with the cursor inside it returns a backend of the pool
and leaves the cursor inside the pool. -/
theorem RoundRobinLB.select_backend_in_pool (backends : List BackendServer) (c : Nat)
    (hc : c < backends.length) :
    ∃ i c1, i < backends.length ∧ c1 < backends.length ∧
      RoundRobinLB.select_backend backends ⟨c⟩ = some (some i, ⟨c1⟩) := by
  have hN : 0 < backends.length := by omega
  by_cases hex : ∃ b ∈ backends, b.healthy = true
  · obtain ⟨d, hd, hh, hbefore⟩ := exists_first_healthy backends c hc hex
    exact ⟨_, _, Nat.mod_lt _ hN, Nat.mod_lt _ hN,
      RoundRobinLB.select_backend_found backends c d hc hd hh hbefore⟩
  · have hall : ∀ b ∈ backends, b.healthy = false := by
      intro b hb
      cases hbh : b.healthy with
      | false => rfl
      | true => exact absurd ⟨b, hb, hbh⟩ hex
    exact ⟨c, _, hc, Nat.mod_lt _ hN,
      RoundRobinLB.select_backend_fallback backends c hc
        (fun i _ => healthyAt_of_all_unhealthy hall i)⟩

/-- The cursor of a reachable object lies inside the pool (and is `0` for the empty pool). -/
theorem RoundRobinLB.Reachable.cursor_bound {n : Nat} {lb : RoundRobinLB}
    (h : RoundRobinLB.Reachable n lb) :
    (0 < n → lb.current_index < n) ∧ (n = 0 → lb.current_index = 0) := by
  induction h with
  | fresh => exact ⟨fun h => h, fun _ => rfl⟩
  | call backends lb lb1 r _ hlen hsel ih =>
    subst hlen
    constructor
    · intro hN
      obtain ⟨i, c1, _, hc1, hres⟩ :=
        RoundRobinLB.select_backend_in_pool backends lb.current_index (ih.1 hN)
      have : some (r, lb1) = some (some i, (⟨c1⟩ : RoundRobinLB)) := by
        rw [← hsel, ← hres]
      simp only [Option.some.injEq, Prod.mk.injEq] at this
      rw [this.2]
      exact hc1
    · intro h0
      have hnil : backends = [] := List.length_eq_zero.mp h0
      subst hnil
      simp only [RoundRobinLB.select_backend, List.isEmpty_nil, if_true, Option.some.injEq,
        Prod.mk.injEq] at hsel
      rw [← hsel.2]
      exact ih.2 rfl

/-- On an all-healthy pool, `m` calls walk the pool cyclically from the cursor. -/
theorem RoundRobinLB.select_n_all_healthy (backends : List BackendServer)
    (hall : ∀ b ∈ backends, b.healthy = true) :
    ∀ (m c : Nat), c < backends.length →
      RoundRobinLB.select_n backends m ⟨c⟩ =
        some ((List.range m).map (fun k => some ((c + k) % backends.length)),
          ⟨(c + m) % backends.length⟩) := by
  intro m
  induction m with
  | zero =>
    intro c hc
    simp [RoundRobinLB.select_n, Nat.mod_eq_of_lt hc]
  | succ m ih =>
    intro c hc
    have hN : 0 < backends.length := by omega
    have hfirst := RoundRobinLB.select_backend_found backends c 0 hc hN
      (healthyAt_of_all_healthy hall (Nat.mod_lt _ hN)) (fun e he => absurd he (Nat.not_lt_zero e))
    simp only [Nat.add_zero, Nat.mod_eq_of_lt hc] at hfirst
    have hrest := ih ((c + 1) % backends.length) (Nat.mod_lt _ hN)
    simp only [succ_mod_add] at hrest
    simp only [RoundRobinLB.select_n, hfirst, hrest, List.range_succ_eq_map, List.map_cons,
      List.map_map, Nat.add_zero, Nat.mod_eq_of_lt hc]
    rfl

/-- The positions met in one turn of the pool are all its positions, each once. -/
theorem cyclic_positions_perm (n c : Nat) (hc : c < n) :
    ((List.range n).map (fun k => (c + k) % n)).Perm (List.range n) := by
  have hn : 0 < n := by omega
  rw [List.perm_ext_iff_of_nodup]
  · intro a
    simp only [List.mem_map, List.mem_range]
    constructor
    · rintro ⟨k, _, rfl⟩
      exact Nat.mod_lt _ hn
    · intro ha
      obtain ⟨e, he, hea⟩ := exists_offset n c a hc ha
      exact ⟨e, he, hea⟩
  · refine List.Nodup.map_on ?_ (List.nodup_range n)
    intro x hx y hy hxy
    rw [List.mem_range] at hx hy
    have h1 : (c + x) ≡ (c + y) [MOD n] := hxy
    have h2 : x ≡ y [MOD n] := Nat.ModEq.add_left_cancel' c h1
    have h3 : x % n = y % n := h2
    rwa [Nat.mod_eq_of_lt hx, Nat.mod_eq_of_lt hy] at h3
  · exact List.nodup_range n

/-- With a healthy backend in the pool, consecutive calls succeed and return healthy backends
only, whatever their number. -/
theorem RoundRobinLB.select_n_healthy (backends : List BackendServer)
    (hex : ∃ b ∈ backends, b.healthy = true) :
    ∀ (m c : Nat), c < backends.length →
      ∃ rs lb1, RoundRobinLB.select_n backends m ⟨c⟩ = some (rs, lb1) ∧
        ∀ r ∈ rs, ∃ i, r = some i ∧ healthyAt backends i = true := by
  intro m
  induction m with
  | zero =>
    intro c _
    exact ⟨[], ⟨c⟩, rfl, fun r hr => absurd hr (List.not_mem_nil r)⟩
  | succ m ih =>
    intro c hc
    have hN : 0 < backends.length := by omega
    obtain ⟨d, hd, hh, hbefore⟩ := exists_first_healthy backends c hc hex
    have hfirst := RoundRobinLB.select_backend_found backends c d hc hd hh hbefore
    obtain ⟨rs, lb1, hrest, hrs⟩ :=
      ih (((c + d) % backends.length + 1) % backends.length) (Nat.mod_lt _ hN)
    refine ⟨some ((c + d) % backends.length) :: rs, lb1, ?_, ?_⟩
    · simp only [RoundRobinLB.select_n, hfirst, hrest]
    · intro r hr
      rcases List.mem_cons.mp hr with h | h
      · exact ⟨_, h, hh⟩
      · exact hrs r h

/-- Distinct positions of a pool with unique ids carry distinct ids. -/
theorem idOf_ne_of_ne (backends : List BackendServer)
    (hids : (backends.map BackendServer.id).Nodup) {i j : Nat}
    (hi : i < backends.length) (hj : j < backends.length) (hij : i ≠ j) :
    idOf backends (some i) ≠ idOf backends (some j) := by
  have hi1 : i < (backends.map BackendServer.id).length := by simpa using hi
  have hj1 : j < (backends.map BackendServer.id).length := by simpa using hj
  simp only [idOf, ← List.getElem?_map]
  rcases Nat.lt_or_gt_of_ne hij with h | h
  · exact List.nodup_iff_getElem?_ne_getElem?.mp hids i j h hj1
  · exact fun e => List.nodup_iff_getElem?_ne_getElem?.mp hids j i h hi1 e.symm

/-! ## Round robin: the properties -/

/-- C1 (round-robin completeness). On a pool of `N` backends that are all healthy, with the
cursor at `c < N`: `N` consecutive calls return the positions `c, c+1, ..., c+N-1 (mod N)`
and leave the cursor at `c`; these positions are all positions of the pool, each exactly once;
and more generally `m` calls return the positions `(c + k) mod N` for `k < m` and leave the
cursor at `(c + m) mod N`. -/
theorem round_robin_completeness (backends : List BackendServer) (c : Nat)
    (hall : ∀ b ∈ backends, b.healthy = true) (hc : c < backends.length) :
    RoundRobinLB.select_n backends backends.length ⟨c⟩ =
        some ((List.range backends.length).map (fun k => some ((c + k) % backends.length)),
          ⟨c⟩) ∧
      ((List.range backends.length).map (fun k => (c + k) % backends.length)).Perm
        (List.range backends.length) ∧
      ∀ m, RoundRobinLB.select_n backends m ⟨c⟩ =
        some ((List.range m).map (fun k => some ((c + k) % backends.length)),
          ⟨(c + m) % backends.length⟩) := by
  refine ⟨?_, cyclic_positions_perm backends.length c hc,
    fun m => RoundRobinLB.select_n_all_healthy backends hall m c hc⟩
  have h := RoundRobinLB.select_n_all_healthy backends hall backends.length c hc
  rwa [Nat.add_mod_right, Nat.mod_eq_of_lt hc] at h

/-- Scenario A: on the pool with ids `[1,2,3,4]`, all healthy, five calls from a fresh cursor
return the ids `[1,2,3,4,1]`, and four calls bring the cursor back to `0`. -/
theorem round_robin_completeness_witness :
    (∀ b ∈ pool_1234, b.healthy = true) ∧ 0 < pool_1234.length ∧
      RoundRobinLB.select_n pool_1234 4 RoundRobinLB.create =
        some ([some 0, some 1, some 2, some 3], ⟨0⟩) ∧
      (∃ rs lb1, RoundRobinLB.select_n pool_1234 5 RoundRobinLB.create = some (rs, lb1) ∧
        rs.map (idOf pool_1234) = [some 1, some 2, some 3, some 4, some 1]) := by
  have hall : ∀ b ∈ pool_1234, b.healthy = true := by decide
  have hc : 0 < pool_1234.length := by decide
  have h := round_robin_completeness pool_1234 0 hall hc
  refine ⟨hall, hc, ?_, _, _, h.2.2 5, ?_⟩
  · simpa [pool_1234, List.range_succ] using h.1
  · simp [pool_1234, List.range_succ, idOf, BackendServer.create]

/-- C2 (round-robin skip). On a pool with at least one healthy backend and the cursor at
`c < N`, a call returns the first healthy backend met when scanning the positions
`c, c+1, ... (mod N)` and sets the cursor one past the returned position (mod `N`).
Hence consecutive calls, whatever their number, return healthy backends only: an unhealthy
backend's position is never returned, and, the ids of the pool being unique, neither is
its id. -/
theorem round_robin_skip (backends : List BackendServer) (c : Nat)
    (hc : c < backends.length) (hex : ∃ b ∈ backends, b.healthy = true) :
    (∃ d, d < backends.length ∧
        healthyAt backends ((c + d) % backends.length) = true ∧
        (∀ e, e < d → healthyAt backends ((c + e) % backends.length) = false) ∧
        RoundRobinLB.select_backend backends ⟨c⟩ =
          some (some ((c + d) % backends.length),
            ⟨((c + d) % backends.length + 1) % backends.length⟩)) ∧
      ∀ m, ∃ rs lb1, RoundRobinLB.select_n backends m ⟨c⟩ = some (rs, lb1) ∧
        (∀ r ∈ rs, ∃ i, r = some i ∧ healthyAt backends i = true) ∧
        ∀ j, j < backends.length → healthyAt backends j = false →
          some j ∉ rs ∧
          ((backends.map BackendServer.id).Nodup →
            idOf backends (some j) ∉ rs.map (idOf backends)) := by
  constructor
  · obtain ⟨d, hd, hh, hbefore⟩ := exists_first_healthy backends c hc hex
    exact ⟨d, hd, hh, hbefore,
      RoundRobinLB.select_backend_found backends c d hc hd hh hbefore⟩
  · intro m
    obtain ⟨rs, lb1, hsel, hrs⟩ := RoundRobinLB.select_n_healthy backends hex m c hc
    refine ⟨rs, lb1, hsel, hrs, ?_⟩
    intro j hj hdown
    constructor
    · intro hmem
      obtain ⟨i, hi, hup⟩ := hrs _ hmem
      have hij : j = i := Option.some.inj hi
      rw [← hij, hdown] at hup
      exact Bool.noConfusion hup
    · intro hids hmem
      obtain ⟨r, hr, hrid⟩ := List.mem_map.mp hmem
      obtain ⟨i, hi, hup⟩ := hrs r hr
      subst hi
      have hij : i ≠ j := by
        intro e
        rw [e, hdown] at hup
        exact Bool.noConfusion hup
      exact idOf_ne_of_ne backends hids (healthyAt_lt hup) hj hij hrid

/-- Scenario D: with backend 3 demoted, the call at the cursor on position 2 skips it and
returns backend 4, and six consecutive calls from a fresh cursor return the ids
`[1,2,4,1,2,4]`. -/
theorem round_robin_skip_witness :
    2 < pool_3_down.length ∧ (∃ b ∈ pool_3_down, b.healthy = true) ∧
      RoundRobinLB.select_backend pool_3_down ⟨2⟩ = some (some 3, ⟨0⟩) ∧
      (∃ rs lb1, RoundRobinLB.select_n pool_3_down 6 ⟨2⟩ = some (rs, lb1) ∧
        idOf pool_3_down (some 2) ∉ rs.map (idOf pool_3_down)) := by
  have hc : 2 < pool_3_down.length := by decide
  have hex : ∃ b ∈ pool_3_down, b.healthy = true := by decide
  have h := round_robin_skip pool_3_down 2 hc hex
  refine ⟨hc, hex, by decide, ?_⟩
  obtain ⟨rs, lb1, hsel, _, hskip⟩ := h.2 6
  exact ⟨rs, lb1, hsel, (hskip 2 hc (by decide)).2 (by decide)⟩

/-- C3 (round-robin last-resort fallback). On a pool of `N` backends that are all unhealthy
(non-empty, since the cursor `c < N` lies inside it), a call returns the backend at position `c` (not
`nullptr`) and leaves the cursor at `(c + 1) mod N`. -/
theorem round_robin_fallback (backends : List BackendServer) (c : Nat)
    (hall : ∀ b ∈ backends, b.healthy = false) (hc : c < backends.length) :
    RoundRobinLB.select_backend backends ⟨c⟩ =
      some (some c, ⟨(c + 1) % backends.length⟩) :=
  RoundRobinLB.select_backend_fallback backends c hc
    (fun i _ => healthyAt_of_all_unhealthy hall i)

/-- On three demoted backends with the cursor on the last one, the call returns the last one
and wraps the cursor to `0`. -/
theorem round_robin_fallback_witness :
    pool_all_down ≠ [] ∧ (∀ b ∈ pool_all_down, b.healthy = false) ∧
      2 < pool_all_down.length ∧
      RoundRobinLB.select_backend pool_all_down ⟨2⟩ = some (some 2, ⟨0⟩) :=
  ⟨by decide, by decide, by decide,
    round_robin_fallback pool_all_down 2 (by decide) (by decide)⟩

/-! ## Least response time: the scan -/

/-- The scan keeps `best` when no backend left is healthy with an average below `min_rtt`. -/
theorem LeastResponseTimeLB.scan_keep :
    ∀ (l : List BackendServer) (i : Nat) (best : Option Nat) (min_rtt : ℚ),
      (∀ b ∈ l, b.healthy = true → ¬ b.avg_rtt_ms < min_rtt) →
      LeastResponseTimeLB.scan l i best min_rtt = best := by
  intro l
  induction l with
  | nil => intro i best min_rtt _; rfl
  | cons b rest ih =>
    intro i best min_rtt h
    have hb : (b.healthy && decide (b.avg_rtt_ms < min_rtt)) = false := by
      cases hh : b.healthy with
      | false => rfl
      | true => simpa using h b (List.mem_cons_self b rest) hh
    simp only [LeastResponseTimeLB.scan, hb]
    exact ih (i + 1) best min_rtt (fun x hx => h x (List.mem_cons_of_mem b hx))

/-- When some backend left is healthy with an average below `min_rtt`, the scan returns the
position of a healthy backend whose average is below `min_rtt`, at most the average of every
healthy backend left, and strictly below that of every healthy backend before it. -/
theorem LeastResponseTimeLB.scan_min :
    ∀ (l : List BackendServer) (i : Nat) (best : Option Nat) (min_rtt : ℚ),
      (∃ b ∈ l, b.healthy = true ∧ b.avg_rtt_ms < min_rtt) →
      ∃ k winner, LeastResponseTimeLB.scan l i best min_rtt = some (i + k) ∧
        l[k]? = some winner ∧ winner.healthy = true ∧ winner.avg_rtt_ms < min_rtt ∧
        (∀ b ∈ l, b.healthy = true → winner.avg_rtt_ms ≤ b.avg_rtt_ms) ∧
        (∀ j b, j < k → l[j]? = some b → b.healthy = true →
          winner.avg_rtt_ms < b.avg_rtt_ms) := by
  intro l
  induction l with
  | nil =>
    intro i best min_rtt h
    obtain ⟨b, hb, _⟩ := h
    exact absurd hb (List.not_mem_nil b)
  | cons b rest ih =>
    intro i best min_rtt h
    by_cases hb : b.healthy = true ∧ b.avg_rtt_ms < min_rtt
    · have hcond : (b.healthy && decide (b.avg_rtt_ms < min_rtt)) = true := by
        simp [hb.1, hb.2]
      by_cases hrest : ∃ x ∈ rest, x.healthy = true ∧ x.avg_rtt_ms < b.avg_rtt_ms
      · obtain ⟨k, w, hres, hk, hwh, hwlt, hwmin, hwfirst⟩ :=
          ih (i + 1) (some i) b.avg_rtt_ms hrest
        refine ⟨k + 1, w, ?_, ?_, hwh, lt_trans hwlt hb.2, ?_, ?_⟩
        · simp only [LeastResponseTimeLB.scan, hcond, if_true, hres]
          congr 1
          omega
        · simpa using hk
        · intro x hx hxh
          rcases List.mem_cons.mp hx with rfl | hx
          · exact le_of_lt hwlt
          · exact hwmin x hx hxh
        · intro j x hj hjx hxh
          cases j with
          | zero =>
            simp only [List.getElem?_cons_zero, Option.some.injEq] at hjx
            rw [← hjx]
            exact hwlt
          | succ j =>
            simp only [List.getElem?_cons_succ] at hjx
            exact hwfirst j x (by omega) hjx hxh
      · refine ⟨0, b, ?_, by simp, hb.1, hb.2, ?_, ?_⟩
        · simp only [LeastResponseTimeLB.scan, hcond, if_true]
          exact LeastResponseTimeLB.scan_keep rest (i + 1) (some i) b.avg_rtt_ms
            (fun x hx hxh hlt => hrest ⟨x, hx, hxh, hlt⟩)
        · intro x hx hxh
          rcases List.mem_cons.mp hx with rfl | hx
          · exact le_refl _
          · exact not_lt.mp (fun hlt => hrest ⟨x, hx, hxh, hlt⟩)
        · intro j x hj
          exact absurd hj (Nat.not_lt_zero j)
    · have hcond : (b.healthy && decide (b.avg_rtt_ms < min_rtt)) = false := by
        cases hh : b.healthy with
        | false => rfl
        | true => simpa using fun hlt => hb ⟨hh, hlt⟩
      have hrest : ∃ x ∈ rest, x.healthy = true ∧ x.avg_rtt_ms < min_rtt := by
        obtain ⟨x, hx, hxh, hxlt⟩ := h
        rcases List.mem_cons.mp hx with rfl | hx
        · exact absurd ⟨hxh, hxlt⟩ hb
        · exact ⟨x, hx, hxh, hxlt⟩
      obtain ⟨k, w, hres, hk, hwh, hwlt, hwmin, hwfirst⟩ := ih (i + 1) best min_rtt hrest
      have hbw : b.healthy = true → w.avg_rtt_ms < b.avg_rtt_ms := by
        intro hh
        have : ¬ b.avg_rtt_ms < min_rtt := fun hlt => hb ⟨hh, hlt⟩
        exact lt_of_lt_of_le hwlt (not_lt.mp this)
      refine ⟨k + 1, w, ?_, ?_, hwh, hwlt, ?_, ?_⟩
      · simp only [LeastResponseTimeLB.scan, hcond, hres]
        simp only [Bool.false_eq_true, if_false, Option.some.injEq]
        omega
      · simpa using hk
      · intro x hx hxh
        rcases List.mem_cons.mp hx with rfl | hx
        · exact le_of_lt (hbw hxh)
        · exact hwmin x hx hxh
      · intro j x hj hjx hxh
        cases j with
        | zero =>
          simp only [List.getElem?_cons_zero, Option.some.injEq] at hjx
          rw [← hjx] at hxh ⊢
          exact hbw hxh
        | succ j =>
          simp only [List.getElem?_cons_succ] at hjx
          exact hwfirst j x (by omega) hjx hxh

/-- Least response time on a pool with a healthy backend whose average is below `DBL_MAX`: the
call returns a healthy backend whose average is at most that of every healthy backend and
strictly below that of every healthy backend before it in pool order. -/
theorem LeastResponseTimeLB.select_backend_min (backends : List BackendServer)
    (hex : ∃ b ∈ backends, b.healthy = true ∧ b.avg_rtt_ms < DBL_MAX) :
    ∃ k winner, LeastResponseTimeLB.select_backend backends = some k ∧
      backends[k]? = some winner ∧ winner.healthy = true ∧
      (∀ b ∈ backends, b.healthy = true → winner.avg_rtt_ms ≤ b.avg_rtt_ms) ∧
      (∀ j b, j < k → backends[j]? = some b → b.healthy = true →
        winner.avg_rtt_ms < b.avg_rtt_ms) := by
  obtain ⟨k, w, hres, hk, hwh, _, hwmin, hwfirst⟩ :=
    LeastResponseTimeLB.scan_min backends 0 none DBL_MAX hex
  have hne : backends ≠ [] := by
    rintro rfl
    obtain ⟨b, hb, _⟩ := hex
    exact absurd hb (List.not_mem_nil b)
  refine ⟨k, w, ?_, hk, hwh, hwmin, hwfirst⟩
  simp only [Nat.zero_add] at hres
  simp [LeastResponseTimeLB.select_backend, hne, hres]

/-- The scan returns `best` or a position among those it visits. -/
theorem LeastResponseTimeLB.scan_bound :
    ∀ (l : List BackendServer) (i : Nat) (best : Option Nat) (min_rtt : ℚ) (k : Nat),
      LeastResponseTimeLB.scan l i best min_rtt = some k →
      best = some k ∨ (i ≤ k ∧ k < i + l.length) := by
  intro l
  induction l with
  | nil =>
    intro i best min_rtt k h
    exact Or.inl h
  | cons b rest ih =>
    intro i best min_rtt k h
    simp only [LeastResponseTimeLB.scan] at h
    split at h
    · rcases ih _ _ _ _ h with h1 | h1
      · right
        have : i = k := Option.some.inj h1
        simp only [List.length_cons]
        omega
      · right
        simp only [List.length_cons]
        omega
    · rcases ih _ _ _ _ h with h1 | h1
      · exact Or.inl h1
      · right
        simp only [List.length_cons]
        omega

/-- Least response time returns a position of the pool whenever the pool is not empty. -/
theorem LeastResponseTimeLB.select_backend_position (backends : List BackendServer)
    (hne : backends ≠ []) :
    ∃ i, LeastResponseTimeLB.select_backend backends = some i ∧ i < backends.length := by
  have hN : 0 < backends.length := List.length_pos.mpr hne
  cases hscan : LeastResponseTimeLB.scan backends 0 none DBL_MAX with
  | none =>
    exact ⟨0, by simp [LeastResponseTimeLB.select_backend, hne, hscan], hN⟩
  | some k =>
    refine ⟨k, by simp [LeastResponseTimeLB.select_backend, hne, hscan], ?_⟩
    rcases LeastResponseTimeLB.scan_bound backends 0 none DBL_MAX k hscan with h | h
    · exact Option.noConfusion h
    · omega

/-! ## Least response time and the common contract: the properties -/

/-- Scenario B: with four healthy backends of which backend 2 has average 50 and the others
100, least response time returns backend 2. -/
theorem LeastResponseTimeLB.select_backend_scenario_B :
    LeastResponseTimeLB.select_backend pool_scenario_B = some 1 ∧
      idOf pool_scenario_B (some 1) = some 2 := by
  constructor
  · simp [LeastResponseTimeLB.select_backend, LeastResponseTimeLB.scan, pool_scenario_B,
      BackendServer.create, DBL_MAX]
    norm_num
  · simp [idOf, pool_scenario_B, BackendServer.create]

/-- Outside the pools that the program builds: on the hand-built pool `pool_rtt_at_max`, whose
only healthy backend carries `DBL_MAX` as its average, the comparison
`avg_rtt_ms < min_rtt` against the initial `min_rtt = DBL_MAX` never accepts a backend and
position 0 is returned. The correctness of the scan therefore needs the averages to be
below `DBL_MAX`. -/
theorem LeastResponseTimeLB.select_backend_at_max :
    (∃ b ∈ pool_rtt_at_max, b.healthy = true) ∧
      LeastResponseTimeLB.select_backend pool_rtt_at_max = some 0 ∧
      healthyAt pool_rtt_at_max 0 = false ∧
      healthyAt pool_rtt_at_max 1 = true := by
  refine ⟨by decide, ?_, by decide, by decide⟩
  simp [LeastResponseTimeLB.select_backend, LeastResponseTimeLB.scan, pool_rtt_at_max,
    BackendServer.create]

/-- C4 (least-response-time correctness). On every pool that contains at least one healthy
backend, the averages being below `DBL_MAX` as they are in every pool the program holds
(an average is `0.0` or a moving average of clock samples, and stays within `0 .. 2^44`
by `HealthChecker.average_below_max`), `select_backend` returns a
healthy backend whose `avg_rtt_ms` is less than or equal to that of every healthy backend of
the pool, and every healthy backend before it in pool order has a strictly larger average:
among the healthy backends attaining the minimum it is the earliest. -/
theorem least_response_time_correct (backends : List BackendServer)
    (hex : ∃ b ∈ backends, b.healthy = true)
    (hbelow : ∀ b ∈ backends, b.avg_rtt_ms < DBL_MAX) :
    ∃ k winner, LeastResponseTimeLB.select_backend backends = some k ∧
      backends[k]? = some winner ∧ winner.healthy = true ∧
      (∀ b ∈ backends, b.healthy = true → winner.avg_rtt_ms ≤ b.avg_rtt_ms) ∧
      (∀ j b, j < k → backends[j]? = some b → b.healthy = true →
        winner.avg_rtt_ms < b.avg_rtt_ms) := by
  obtain ⟨b, hb, hh⟩ := hex
  exact LeastResponseTimeLB.select_backend_min backends ⟨b, hb, hh, hbelow b hb⟩

/-- Scenario B: with four healthy backends of which backend 2 has average 50 and the others
100, the backend returned is backend 2, at position 1. -/
theorem least_response_time_correct_witness :
    (∃ b ∈ pool_scenario_B, b.healthy = true) ∧
      (∀ b ∈ pool_scenario_B, b.avg_rtt_ms < DBL_MAX) ∧
      LeastResponseTimeLB.select_backend pool_scenario_B = some 1 ∧
      idOf pool_scenario_B (some 1) = some 2 ∧
      ∃ k winner, LeastResponseTimeLB.select_backend pool_scenario_B = some k ∧
        pool_scenario_B[k]? = some winner ∧ winner.healthy = true ∧
        ∀ b ∈ pool_scenario_B, b.healthy = true → winner.avg_rtt_ms ≤ b.avg_rtt_ms := by
  have hex : ∃ b ∈ pool_scenario_B, b.healthy = true := by decide
  have hbelow : ∀ b ∈ pool_scenario_B, b.avg_rtt_ms < DBL_MAX := by
    intro b hb
    simp only [pool_scenario_B, BackendServer.create, List.mem_cons, List.mem_singleton,
      List.not_mem_nil, or_false] at hb
    rcases hb with rfl | rfl | rfl | rfl <;> simp only [DBL_MAX] <;> norm_num
  obtain ⟨k, winner, hsel, hk, hh, hmin, _⟩ :=
    least_response_time_correct pool_scenario_B hex hbelow
  exact ⟨hex, hbelow, LeastResponseTimeLB.select_backend_scenario_B.1,
    LeastResponseTimeLB.select_backend_scenario_B.2, k, winner, hsel, hk, hh, hmin⟩

/-- C5 (least-response-time fallback). On a non-empty pool in which no backend is healthy,
least response time returns the first backend in pool order, position 0, whatever the
averages are. -/
theorem least_response_time_fallback (backends : List BackendServer)
    (hne : backends ≠ []) (hall : ∀ b ∈ backends, b.healthy = false) :
    LeastResponseTimeLB.select_backend backends = some 0 := by
  have hscan := LeastResponseTimeLB.scan_keep backends 0 none DBL_MAX
    (fun b hb hh => by rw [hall b hb] at hh; exact Bool.noConfusion hh)
  simp [LeastResponseTimeLB.select_backend, hne, hscan]

/-- On three demoted backends with averages 30, 10 and 20, position 0 is returned although
position 1 has the smallest average. -/
theorem least_response_time_fallback_witness :
    pool_all_down ≠ [] ∧ (∀ b ∈ pool_all_down, b.healthy = false) ∧
      LeastResponseTimeLB.select_backend pool_all_down = some 0 :=
  ⟨by decide, by decide, least_response_time_fallback pool_all_down (by decide) (by decide)⟩

/-- C6 (common contract). For round robin with a cursor reachable from the fresh one, and for
least response time, on every pool: the call returns `nullptr` if and only if the pool is
empty, and on a non-empty pool it returns a backend that is an element of the pool, whatever
the health flags are. -/
theorem select_backend_null_iff_empty (backends : List BackendServer) (lb : RoundRobinLB)
    (hreach : RoundRobinLB.Reachable backends.length lb) :
    (∃ r lb1, RoundRobinLB.select_backend backends lb = some (r, lb1) ∧
        (r = none ↔ backends = []) ∧
        (backends ≠ [] →
          ∃ i backend, r = some i ∧ backends[i]? = some backend ∧ backend ∈ backends)) ∧
      ((LeastResponseTimeLB.select_backend backends = none ↔ backends = []) ∧
        (backends ≠ [] →
          ∃ i backend, LeastResponseTimeLB.select_backend backends = some i ∧
            backends[i]? = some backend ∧ backend ∈ backends)) := by
  by_cases hne : backends = []
  · subst hne
    refine ⟨⟨none, lb, rfl, by simp, fun h => absurd rfl h⟩, by
      simp [LeastResponseTimeLB.select_backend]⟩
  · have hN : 0 < backends.length := List.length_pos.mpr hne
    constructor
    · obtain ⟨i, c1, hi, _, hres⟩ :=
        RoundRobinLB.select_backend_in_pool backends lb.current_index (hreach.cursor_bound.1 hN)
      refine ⟨some i, ⟨c1⟩, hres, by simp [hne], fun _ =>
        ⟨i, backends[i], rfl, List.getElem?_eq_getElem hi, List.getElem_mem hi⟩⟩
    · obtain ⟨i, hres, hi⟩ := LeastResponseTimeLB.select_backend_position backends hne
      refine ⟨by simp [hres, hne], fun _ =>
        ⟨i, backends[i], hres, List.getElem?_eq_getElem hi, List.getElem_mem hi⟩⟩

/-- On the all-demoted pool, after one call from a fresh cursor, both strategies still
return a backend of the pool. -/
theorem select_backend_null_iff_empty_witness :
    RoundRobinLB.Reachable pool_all_down.length ⟨1⟩ ∧
      RoundRobinLB.select_backend pool_all_down ⟨1⟩ = some (some 1, ⟨2⟩) ∧
      LeastResponseTimeLB.select_backend pool_all_down = some 0 ∧
      (∃ r lb1, RoundRobinLB.select_backend pool_all_down ⟨1⟩ = some (r, lb1) ∧
        (r = none ↔ pool_all_down = [])) := by
  have hreach : RoundRobinLB.Reachable pool_all_down.length ⟨1⟩ :=
    RoundRobinLB.Reachable.call pool_all_down RoundRobinLB.create ⟨1⟩ (some 0)
      RoundRobinLB.Reachable.fresh rfl (by decide)
  obtain ⟨r, lb1, hsel, hnull, _⟩ :=
    (select_backend_null_iff_empty pool_all_down ⟨1⟩ hreach).1
  exact ⟨hreach, by decide, by
    simp [LeastResponseTimeLB.select_backend, LeastResponseTimeLB.scan, pool_all_down,
      BackendServer.create], r, lb1, hsel, hnull⟩

/-! ## Machine arithmetic: rounding and wrap-around -/

theorem wrap_int32_of_range {x : Int} (hlow : -2147483648 ≤ x) (hhigh : x ≤ 2147483647) :
    wrap_int32 x = x := by
  unfold wrap_int32
  omega

theorem wrap_int32_add (x y : Int) : wrap_int32 (wrap_int32 x + y) = wrap_int32 (x + y) := by
  unfold wrap_int32
  omega

/-- A rational strictly within one half of an integer rounds to it. -/
theorem round_half_even_of_near (m : ℤ) (q : ℚ) (hlow : (m : ℚ) - 1 / 2 < q)
    (hhigh : q < m + 1 / 2) : round_half_even q = m := by
  unfold round_half_even
  by_cases hq : (m : ℚ) ≤ q
  · have hfloor : ⌊q⌋ = m := Int.floor_eq_iff.mpr ⟨hq, by linarith⟩
    rw [hfloor]
    rw [if_pos (by linarith)]
  · have hfloor : ⌊q⌋ = m - 1 := Int.floor_eq_iff.mpr ⟨by push_cast; linarith, by
      push_cast; linarith⟩
    rw [hfloor]
    push_cast
    rw [if_neg (by linarith), if_pos (by linarith)]
    ring

/-- A rational half-way above an even integer rounds down to it. -/
theorem round_half_even_of_tie (m : ℤ) (q : ℚ) (hq : q = m + 1 / 2) (heven : m % 2 = 0) :
    round_half_even q = m := by
  unfold round_half_even
  have hfloor : ⌊q⌋ = m := Int.floor_eq_iff.mpr ⟨by linarith, by linarith⟩
  rw [hfloor, if_neg (by linarith), if_neg (by linarith), if_pos heven]

theorem round_half_even_nonneg {q : ℚ} (hq : 0 ≤ q) : 0 ≤ round_half_even q := by
  have hfloor : 0 ≤ ⌊q⌋ := Int.floor_nonneg.mpr hq
  unfold round_half_even
  split_ifs <;> omega

theorem binade_eq {x : ℚ} {e : ℤ} (hlow : (2 : ℚ) ^ e ≤ |x|) (hhigh : |x| < (2 : ℚ) ^ (e + 1)) :
    binade x = e := by
  have hpos : 0 < |x| := lt_of_lt_of_le (zpow_pos (by norm_num) e) hlow
  have h1 : e ≤ Int.log 2 |x| :=
    (Int.zpow_le_iff_le_log (by norm_num) hpos).mp (by simpa using hlow)
  have h2 : Int.log 2 |x| < e + 1 :=
    (Int.lt_zpow_iff_log_lt (by norm_num) hpos).mp (by simpa using hhigh)
  unfold binade
  omega

theorem to_double_eq {x : ℚ} {e m : ℤ} (hx : x ≠ 0) (he : binade x = e) (hnormal : -1022 ≤ e)
    (hm : round_half_even (x / 2 ^ (e - 52)) = m) : to_double x = m * 2 ^ (e - 52) := by
  unfold to_double
  rw [if_neg hx, he, max_eq_left hnormal, hm]

theorem to_double_nonneg {x : ℚ} (hx : 0 ≤ x) : 0 ≤ to_double x := by
  unfold to_double
  split_ifs
  · exact le_refl _
  · apply mul_nonneg
    · exact_mod_cast round_half_even_nonneg (div_nonneg hx (le_of_lt (zpow_pos (by norm_num) _)))
    · exact le_of_lt (zpow_pos (by norm_num) _)

/-- The double nearest to `0.3`. -/
theorem to_double_three_tenths : to_double (3 / 10) = 5404319552844595 / 2 ^ 54 := by
  have h := to_double_eq (x := 3 / 10) (e := -2) (m := 5404319552844595) (by norm_num)
    (binade_eq (by norm_num [abs_of_pos]) (by norm_num [abs_of_pos])) (by norm_num)
    (round_half_even_of_near _ _ (by norm_num) (by norm_num))
  rw [h]
  norm_num

/-- The double nearest to `0.7`. -/
theorem to_double_seven_tenths : to_double (7 / 10) = 3152519739159347 / 2 ^ 52 := by
  have h := to_double_eq (x := 7 / 10) (e := -1) (m := 6305039478318694) (by norm_num)
    (binade_eq (by norm_num [abs_of_pos]) (by norm_num [abs_of_pos])) (by norm_num)
    (round_half_even_of_near _ _ (by norm_num) (by norm_num))
  rw [h]
  norm_num

/-- The difference `1.0 - RTT_ALPHA` in double arithmetic is the double nearest to `0.7`. -/
theorem to_double_one_sub_alpha :
    to_double (1 - to_double (3 / 10)) = to_double (7 / 10) := by
  rw [to_double_three_tenths, to_double_seven_tenths]
  have h := to_double_eq (x := 1 - 5404319552844595 / 2 ^ 54) (e := -1)
    (m := 6305039478318694) (by norm_num)
    (binade_eq (by norm_num [abs_of_pos]) (by norm_num [abs_of_pos])) (by norm_num)
    (round_half_even_of_tie _ _ (by norm_num) (by norm_num))
  rw [h]
  norm_num

/-! ## Rounding is monotone -/

theorem round_half_even_bounds (q : ℚ) :
    q - 1 / 2 ≤ (round_half_even q : ℚ) ∧ (round_half_even q : ℚ) ≤ q + 1 / 2 := by
  have h1 : (⌊q⌋ : ℚ) ≤ q := Int.floor_le q
  have h2 : q < ⌊q⌋ + 1 := Int.lt_floor_add_one q
  unfold round_half_even
  split_ifs with a b c
  · constructor <;> linarith
  · push_cast
    constructor <;> linarith
  · constructor <;> linarith
  · push_cast
    constructor <;> linarith

theorem round_half_even_mono {q1 q2 : ℚ} (h : q1 ≤ q2) :
    round_half_even q1 ≤ round_half_even q2 := by
  by_contra hlt
  have hstep : round_half_even q2 + 1 ≤ round_half_even q1 := by omega
  have hcast : ((round_half_even q2 : ℤ) : ℚ) + 1 ≤ round_half_even q1 := by exact_mod_cast hstep
  have b1 := (round_half_even_bounds q1).2
  have b2 := (round_half_even_bounds q2).1
  have heq : q1 = q2 := le_antisymm h (by linarith)
  rw [heq] at hlt
  exact hlt (le_refl _)

theorem round_half_even_int (n : ℤ) : round_half_even (n : ℚ) = n :=
  round_half_even_of_near n n (by linarith) (by linarith)

theorem binade_bounds {x : ℚ} (hx : 0 < x) :
    (2 : ℚ) ^ binade x ≤ x ∧ x < (2 : ℚ) ^ (binade x + 1) := by
  unfold binade
  rw [abs_of_pos hx]
  have h1 := Int.zpow_log_le_self (b := 2) (by norm_num) hx
  have h2 := Int.lt_zpow_succ_log_self (b := 2) (by norm_num) x
  exact ⟨by simpa using h1, by simpa using h2⟩

theorem binade_mono {x y : ℚ} (hx : 0 < x) (hxy : x ≤ y) : binade x ≤ binade y := by
  unfold binade
  rw [abs_of_pos hx, abs_of_pos (lt_of_lt_of_le hx hxy)]
  exact Int.log_mono_right hx hxy

theorem two_zpow_split (e : ℤ) (n : ℤ) : (2 : ℚ) ^ (e + n) = 2 ^ n * 2 ^ e := by
  rw [zpow_add₀ (by norm_num), mul_comm]

/-- A positive rational rounds to at most the power of two above it. -/
theorem to_double_le_next_power {x : ℚ} (hx : 0 < x) :
    to_double x ≤ 2 ^ (max (binade x) (-1022) + 1) := by
  have hne : x ≠ 0 := ne_of_gt hx
  have hu : (0 : ℚ) < 2 ^ (max (binade x) (-1022) - 52) := zpow_pos (by norm_num) _
  have hlt : x < 2 ^ (max (binade x) (-1022) + 1) :=
    lt_of_lt_of_le (binade_bounds hx).2
      (zpow_le_zpow_right₀ (by norm_num) (by omega))
  have hsplit : (2 : ℚ) ^ (max (binade x) (-1022) + 1)
      = 2 ^ (53 : ℤ) * 2 ^ (max (binade x) (-1022) - 52) := by
    rw [← zpow_add₀ (by norm_num)]
    congr 1
    ring
  have hq : x / 2 ^ (max (binade x) (-1022) - 52) ≤ ((2 ^ 53 : ℤ) : ℚ) := by
    rw [div_le_iff₀ hu]
    have : (((2 ^ 53 : ℤ) : ℚ)) = 2 ^ (53 : ℤ) := by norm_num
    rw [this, ← hsplit]
    exact le_of_lt hlt
  have hr := round_half_even_mono hq
  rw [round_half_even_int] at hr
  unfold to_double
  rw [if_neg hne, hsplit]
  apply mul_le_mul_of_nonneg_right _ (le_of_lt hu)
  have : ((round_half_even (x / 2 ^ (max (binade x) (-1022) - 52)) : ℤ) : ℚ)
      ≤ ((2 ^ 53 : ℤ) : ℚ) := by exact_mod_cast hr
  calc ((round_half_even (x / 2 ^ (max (binade x) (-1022) - 52)) : ℤ) : ℚ)
      ≤ ((2 ^ 53 : ℤ) : ℚ) := this
    _ = 2 ^ (53 : ℤ) := by norm_num

/-- A positive rational in the normal range rounds to at least the power of two below it. -/
theorem to_double_ge_power {x : ℚ} (hx : 0 < x) (hnormal : -1022 ≤ binade x) :
    (2 : ℚ) ^ binade x ≤ to_double x := by
  have hne : x ≠ 0 := ne_of_gt hx
  have hu : (0 : ℚ) < 2 ^ (binade x - 52) := zpow_pos (by norm_num) _
  have hsplit : (2 : ℚ) ^ binade x = 2 ^ (52 : ℤ) * 2 ^ (binade x - 52) := by
    rw [← zpow_add₀ (by norm_num)]
    congr 1
    ring
  have hq : ((2 ^ 52 : ℤ) : ℚ) ≤ x / 2 ^ (binade x - 52) := by
    rw [le_div_iff₀ hu]
    have : (((2 ^ 52 : ℤ) : ℚ)) = 2 ^ (52 : ℤ) := by norm_num
    rw [this, ← hsplit]
    exact (binade_bounds hx).1
  have hr := round_half_even_mono hq
  rw [round_half_even_int] at hr
  unfold to_double
  rw [if_neg hne, max_eq_left hnormal, hsplit]
  apply mul_le_mul_of_nonneg_right _ (le_of_lt hu)
  have : ((2 ^ 52 : ℤ) : ℚ) ≤ ((round_half_even (x / 2 ^ (binade x - 52)) : ℤ) : ℚ) := by
    exact_mod_cast hr
  calc (2 : ℚ) ^ (52 : ℤ) = ((2 ^ 52 : ℤ) : ℚ) := by norm_num
    _ ≤ _ := this

/-- Rounding to double keeps the order of non-negative rationals. -/
theorem to_double_mono {x y : ℚ} (hx : 0 ≤ x) (hxy : x ≤ y) : to_double x ≤ to_double y := by
  rcases eq_or_lt_of_le hx with h0 | hpos
  · rw [← h0]
    have : to_double 0 = 0 := by simp [to_double]
    rw [this]
    exact to_double_nonneg (le_trans hx hxy)
  · have hypos : 0 < y := lt_of_lt_of_le hpos hxy
    have hb := binade_mono hpos hxy
    rcases eq_or_lt_of_le (max_le_max hb (le_refl (-1022 : ℤ))) with he | he
    · unfold to_double
      rw [if_neg (ne_of_gt hpos), if_neg (ne_of_gt hypos), he]
      have hu : (0 : ℚ) < 2 ^ (max (binade y) (-1022) - 52) := zpow_pos (by norm_num) _
      apply mul_le_mul_of_nonneg_right _ (le_of_lt hu)
      exact_mod_cast round_half_even_mono (div_le_div_of_nonneg_right hxy (le_of_lt hu))
    · have hnormal : -1022 ≤ binade y := by
        rcases le_total (binade y) (-1022) with h1 | h1
        · rw [max_eq_right h1] at he
          have := le_max_right (binade x) (-1022)
          omega
        · exact h1
      have hey : max (binade y) (-1022) = binade y := max_eq_left hnormal
      rw [hey] at he
      calc to_double x ≤ 2 ^ (max (binade x) (-1022) + 1) := to_double_le_next_power hpos
        _ ≤ 2 ^ binade y := zpow_le_zpow_right₀ (by norm_num) (by omega)
        _ ≤ to_double y := to_double_ge_power hypos hnormal

/-! ## Health bookkeeping: failed probes -/

theorem wrap_int32_range (x : Int) :
    -2147483648 ≤ wrap_int32 x ∧ wrap_int32 x ≤ 2147483647 := by
  unfold wrap_int32
  omega

/-- What a failed probe does to the counter and the health flag. -/
theorem HealthChecker.update_failure (round : ℚ → ℚ) (now : Nat) (backend : BackendServer)
    (rtt_ms : ℚ) :
    (HealthChecker.update_backend_health round now backend false rtt_ms).consecutive_failures
        = wrap_int32 (backend.consecutive_failures + 1) ∧
      (HealthChecker.update_backend_health round now backend false rtt_ms).healthy
        = (if 3 ≤ wrap_int32 (backend.consecutive_failures + 1) then false
           else backend.healthy) ∧
      (HealthChecker.update_backend_health round now backend false rtt_ms).avg_rtt_ms
        = backend.avg_rtt_ms ∧
      (HealthChecker.update_backend_health round now backend false rtt_ms).id = backend.id ∧
      (HealthChecker.update_backend_health round now backend false rtt_ms).ip = backend.ip ∧
      (HealthChecker.update_backend_health round now backend false rtt_ms).port
        = backend.port := by
  simp only [HealthChecker.update_backend_health, Bool.false_eq_true, if_false,
    HealthChecker.MAX_CONSECUTIVE_FAILURES, ge_iff_le]
  split <;> simp [*]

/-- A streak of failed probes adds its length to the failure counter, in 32-bit arithmetic. -/
theorem HealthChecker.apply_failures_counter (round : ℚ → ℚ) :
    ∀ (probes : List Probe) (backend : BackendServer),
      -2147483648 ≤ backend.consecutive_failures →
      backend.consecutive_failures ≤ 2147483647 →
      (∀ p ∈ probes, p.success = false) →
      (HealthChecker.apply_probes round backend probes).consecutive_failures =
        wrap_int32 (backend.consecutive_failures + probes.length) := by
  intro probes
  induction probes with
  | nil =>
    intro backend hlow hhigh _
    simp only [HealthChecker.apply_probes, List.length_nil, Nat.cast_zero, add_zero]
    exact (wrap_int32_of_range hlow hhigh).symm
  | cons p ps ih =>
    intro backend _ _ hfail
    have hp : p.success = false := hfail p (List.mem_cons_self p ps)
    have hcount := (HealthChecker.update_failure round p.now backend p.rtt_ms).1
    rw [← hp] at hcount
    have hstep := ih (HealthChecker.update_backend_health round p.now backend p.success p.rtt_ms)
      (by rw [hcount]; exact (wrap_int32_range _).1)
      (by rw [hcount]; exact (wrap_int32_range _).2)
      (fun q hq => hfail q (List.mem_cons_of_mem p hq))
    simp only [HealthChecker.apply_probes, List.length_cons]
    rw [hstep, hcount, wrap_int32_add]
    congr 1
    push_cast
    ring

/-- After `n` failures in a row a record is healthy exactly when `n < 3`, however long the
streak gets: the counter is exact below the threshold, and a failed probe never sets the
flag again. -/
theorem HealthChecker.apply_failures_healthy (round : ℚ → ℚ) :
    ∀ (probes : List Probe) (backend : BackendServer) (n : Nat),
      (backend.healthy = true ↔ n < 3) → (n < 3 → backend.consecutive_failures = n) →
      (∀ p ∈ probes, p.success = false) →
      ((HealthChecker.apply_probes round backend probes).healthy = true ↔
        n + probes.length < 3) := by
  intro probes
  induction probes with
  | nil =>
    intro backend n hflag _ _
    simpa [HealthChecker.apply_probes] using hflag
  | cons p ps ih =>
    intro backend n hflag hcount hfail
    have hp : p.success = false := hfail p (List.mem_cons_self p ps)
    obtain ⟨hc, hh, _⟩ := HealthChecker.update_failure round p.now backend p.rtt_ms
    have hstep := ih (HealthChecker.update_backend_health round p.now backend false p.rtt_ms)
      (n + 1) ?_ ?_ (fun q hq => hfail q (List.mem_cons_of_mem p hq))
    · simp only [HealthChecker.apply_probes, List.length_cons, hp]
      rw [hstep]
      omega
    · rw [hh]
      by_cases hn : n + 1 < 3
      · have hcf := hcount (by omega)
        have hw : wrap_int32 (backend.consecutive_failures + 1) = n + 1 := by
          rw [hcf]
          exact wrap_int32_of_range (by omega) (by omega)
        rw [hw, if_neg (by omega)]
        simp only [hn, iff_true]
        exact hflag.mpr (by omega)
      · simp only [hn, iff_false]
        by_cases hn2 : n < 3
        · have hcf := hcount hn2
          have hw : wrap_int32 (backend.consecutive_failures + 1) = n + 1 := by
            rw [hcf]
            exact wrap_int32_of_range (by omega) (by omega)
          rw [hw, if_pos (by omega)]
          simp
        · have hdown : backend.healthy = false := by
            cases hb : backend.healthy with
            | false => rfl
            | true => exact absurd (hflag.mp hb) hn2
          rw [hdown]
          split <;> simp
    · intro hn
      rw [hc, hcount (by omega)]
      push_cast
      exact wrap_int32_of_range (by omega) (by omega)

/-- C7 as stated fails on the code: after `2^31` consecutive failed probes on a fresh record
the 32-bit counter holds `-2^31`, not the number of failures. -/
theorem health_demotion_counter_wraps :
    (∀ p ∈ List.replicate 2147483648 (⟨0, false, 0⟩ : Probe), p.success = false) ∧
      (HealthChecker.apply_probes to_double (BackendServer.create 3 "10.0.0.3" 9003)
        (List.replicate 2147483648 ⟨0, false, 0⟩)).consecutive_failures = -2147483648 ∧
      (HealthChecker.apply_probes to_double (BackendServer.create 3 "10.0.0.3" 9003)
        (List.replicate 2147483648 ⟨0, false, 0⟩)).consecutive_failures ≠
        ((List.replicate 2147483648 (⟨0, false, 0⟩ : Probe)).length : Int) := by
  have hfail : ∀ p ∈ List.replicate 2147483648 (⟨0, false, 0⟩ : Probe), p.success = false := by
    intro p hp
    rw [List.eq_of_mem_replicate hp]
  have hcount := HealthChecker.apply_failures_counter to_double
    (List.replicate 2147483648 ⟨0, false, 0⟩) (BackendServer.create 3 "10.0.0.3" 9003)
    (by simp [BackendServer.create]) (by simp [BackendServer.create]) hfail
  have hvalue : (HealthChecker.apply_probes to_double (BackendServer.create 3 "10.0.0.3" 9003)
      (List.replicate 2147483648 ⟨0, false, 0⟩)).consecutive_failures = -2147483648 := by
    rw [hcount, List.length_replicate]
    simp only [BackendServer.create, wrap_int32]
    norm_num
  refine ⟨hfail, hvalue, ?_⟩
  rw [hvalue, List.length_replicate]
  norm_num

/-- C7 (health demotion exactness), amended. A backend record that is healthy with
`consecutive_failures = 0` has, after `k` consecutive calls of `update_backend_health` with
`success = false` (at any times, with any `rtt_ms` arguments), `consecutive_failures = k` as
long as `k <= INT_MAX = 2147483647`, and it is healthy if and only if `k < 3`, for every
`k`: still healthy after 2 failures, unhealthy exactly on the 3rd and from then on. -/
theorem health_demotion_exact (round : ℚ → ℚ) (backend : BackendServer) (probes : List Probe)
    (hhealthy : backend.healthy = true) (hzero : backend.consecutive_failures = 0)
    (hfail : ∀ p ∈ probes, p.success = false) :
    (probes.length ≤ 2147483647 →
        (HealthChecker.apply_probes round backend probes).consecutive_failures
          = probes.length) ∧
      ((HealthChecker.apply_probes round backend probes).healthy = true ↔
        probes.length < 3) := by
  constructor
  · intro hbound
    have h := HealthChecker.apply_failures_counter round probes backend
      (by rw [hzero]; norm_num) (by rw [hzero]; norm_num) hfail
    rw [h, hzero, zero_add]
    exact wrap_int32_of_range (by omega) (by omega)
  · have h := HealthChecker.apply_failures_healthy round probes backend 0
      (by simp [hhealthy]) (fun _ => by simpa using hzero) hfail
    simpa using h

/-- A fresh record is still healthy after two failed probes and unhealthy after the third. -/
theorem health_demotion_exact_witness :
    (HealthChecker.apply_probes to_double (BackendServer.create 3 "10.0.0.3" 9003)
        [⟨1, false, 0⟩, ⟨2, false, 0⟩]).healthy = true ∧
      (HealthChecker.apply_probes to_double (BackendServer.create 3 "10.0.0.3" 9003)
        [⟨1, false, 0⟩, ⟨2, false, 0⟩, ⟨3, false, 0⟩]).healthy = false ∧
      (HealthChecker.apply_probes to_double (BackendServer.create 3 "10.0.0.3" 9003)
        [⟨1, false, 0⟩, ⟨2, false, 0⟩, ⟨3, false, 0⟩]).consecutive_failures = 3 := by
  have h2 := health_demotion_exact to_double (BackendServer.create 3 "10.0.0.3" 9003)
    [⟨1, false, 0⟩, ⟨2, false, 0⟩] rfl rfl (by decide)
  have h3 := health_demotion_exact to_double (BackendServer.create 3 "10.0.0.3" 9003)
    [⟨1, false, 0⟩, ⟨2, false, 0⟩, ⟨3, false, 0⟩] rfl rfl (by decide)
  refine ⟨h2.2.mpr (by decide), ?_, h3.1 (by decide)⟩
  cases hb : (HealthChecker.apply_probes to_double (BackendServer.create 3 "10.0.0.3" 9003)
      [⟨1, false, 0⟩, ⟨2, false, 0⟩, ⟨3, false, 0⟩]).healthy with
  | false => rfl
  | true => exact absurd (h3.2.mp hb) (by decide)

/-! ## Health bookkeeping: successful probes -/

/-- Successful probes with the sample `r` keep an average that already equals `r`. -/
theorem HealthChecker.apply_successes_fixed :
    ∀ (probes : List Probe) (backend : BackendServer) (r : ℚ),
      backend.avg_rtt_ms = r → (∀ p ∈ probes, p.success = true ∧ p.rtt_ms = r) →
      (HealthChecker.apply_probes exact_arithmetic backend probes).avg_rtt_ms = r := by
  intro probes
  induction probes with
  | nil =>
    intro backend r h _
    exact h
  | cons p ps ih =>
    intro backend r h hp
    obtain ⟨hs, hr⟩ := hp p (List.mem_cons_self p ps)
    refine ih _ r ?_ (fun q hq => hp q (List.mem_cons_of_mem p hq))
    simp only [HealthChecker.update_backend_health, hs, hr, if_true, h,
      HealthChecker.RTT_ALPHA, exact_arithmetic]
    split
    · rfl
    · simp only
      ring

/-- Successful probes with the sample `r ≥ 0` on a positive average follow the closed form. -/
theorem HealthChecker.apply_successes_closed_form :
    ∀ (probes : List Probe) (backend : BackendServer) (r : ℚ),
      0 ≤ r → 0 < backend.avg_rtt_ms → (∀ p ∈ probes, p.success = true ∧ p.rtt_ms = r) →
      (HealthChecker.apply_probes exact_arithmetic backend probes).avg_rtt_ms =
        ema_closed_form (HealthChecker.RTT_ALPHA exact_arithmetic) backend.avg_rtt_ms r
          probes.length := by
  intro probes
  induction probes with
  | nil =>
    intro backend r _ _ _
    simp [HealthChecker.apply_probes, ema_closed_form]
  | cons p ps ih =>
    intro backend r hr hpos hp
    obtain ⟨hs, hpr⟩ := hp p (List.mem_cons_self p ps)
    have hne : backend.avg_rtt_ms ≠ 0 := ne_of_gt hpos
    have hnext : (HealthChecker.update_backend_health exact_arithmetic p.now backend p.success
        p.rtt_ms).avg_rtt_ms = 3 / 10 * r + 7 / 10 * backend.avg_rtt_ms := by
      simp only [HealthChecker.update_backend_health, hs, hpr, if_true, hne, if_false,
        HealthChecker.RTT_ALPHA, exact_arithmetic]
      norm_num
    have hpos1 : 0 < (HealthChecker.update_backend_health exact_arithmetic p.now backend
        p.success p.rtt_ms).avg_rtt_ms := by
      rw [hnext]
      positivity
    have hstep := ih _ r hr hpos1 (fun q hq => hp q (List.mem_cons_of_mem p hq))
    simp only [HealthChecker.apply_probes, List.length_cons]
    rw [hstep, hnext]
    simp only [ema_closed_form, HealthChecker.RTT_ALPHA, exact_arithmetic, pow_succ]
    ring

/-- C9 as stated fails on the code: a fresh record (`avg_rtt_ms = 0`) and one successful probe
with sample `10` satisfy the claim's hypotheses, the code sets the average to `10`, and the
closed form gives `3` (arithmetic taken exactly, as the claim stipulates). -/
theorem ema_closed_form_fails_from_zero :
    (0 : ℚ) ≤ (BackendServer.create 1 "10.0.0.1" 9001).avg_rtt_ms ∧ (0 : ℚ) ≤ 10 ∧
      (HealthChecker.apply_probes exact_arithmetic (BackendServer.create 1 "10.0.0.1" 9001)
        [⟨1, true, 10⟩]).avg_rtt_ms = 10 ∧
      ema_closed_form (HealthChecker.RTT_ALPHA exact_arithmetic)
        (BackendServer.create 1 "10.0.0.1" 9001).avg_rtt_ms 10 1 = 3 ∧
      (HealthChecker.apply_probes exact_arithmetic (BackendServer.create 1 "10.0.0.1" 9001)
        [⟨1, true, 10⟩]).avg_rtt_ms ≠
        ema_closed_form (HealthChecker.RTT_ALPHA exact_arithmetic)
          (BackendServer.create 1 "10.0.0.1" 9001).avg_rtt_ms 10 1 := by
  have h1 : (HealthChecker.apply_probes exact_arithmetic (BackendServer.create 1 "10.0.0.1" 9001)
      [⟨1, true, 10⟩]).avg_rtt_ms = 10 := by
    simp [HealthChecker.apply_probes, HealthChecker.update_backend_health,
      BackendServer.create]
  have h2 : ema_closed_form (HealthChecker.RTT_ALPHA exact_arithmetic)
      (BackendServer.create 1 "10.0.0.1" 9001).avg_rtt_ms 10 1 = 3 := by
    simp only [ema_closed_form, HealthChecker.RTT_ALPHA, exact_arithmetic, BackendServer.create]
    norm_num
  refine ⟨le_refl _, by norm_num, h1, h2, ?_⟩
  rw [h1, h2]
  norm_num

/-- C9 (EMA closed form), amended. With arithmetic taken exactly, over the rationals: for
a fixed sample `r ≥ 0` and `k` consecutive calls of `update_backend_health` with
`success = true` and `rtt_ms = r`, from a starting average
`avg0 > 0` the average afterwards is `r*(1 - (1-a)^k) + avg0*(1-a)^k` with `a = 0.3`; from
the starting average `0` (a record without a sample yet) it is `r` as soon as `k ≥ 1`,
the first sample being taken as it is. -/
theorem ema_closed_form_from_positive (backend : BackendServer) (r : ℚ) (probes : List Probe)
    (hr : 0 ≤ r) (hprobes : ∀ p ∈ probes, p.success = true ∧ p.rtt_ms = r) :
    (0 < backend.avg_rtt_ms →
        (HealthChecker.apply_probes exact_arithmetic backend probes).avg_rtt_ms =
          r * (1 - (1 - 3 / 10) ^ probes.length)
            + backend.avg_rtt_ms * (1 - 3 / 10) ^ probes.length) ∧
      (backend.avg_rtt_ms = 0 → probes ≠ [] →
        (HealthChecker.apply_probes exact_arithmetic backend probes).avg_rtt_ms = r) := by
  constructor
  · intro hpos
    exact HealthChecker.apply_successes_closed_form probes backend r hr hpos hprobes
  · intro hzero hne
    cases probes with
    | nil => exact absurd rfl hne
    | cons p ps =>
      obtain ⟨hs, hpr⟩ := hprobes p (List.mem_cons_self p ps)
      refine HealthChecker.apply_successes_fixed ps _ r ?_
        (fun q hq => hprobes q (List.mem_cons_of_mem p hq))
      simp [HealthChecker.update_backend_health, hs, hpr, hzero]

/-- From the average 100, two successful probes with sample 50 give
`50 * (1 - 0.49) + 100 * 0.49 = 74.5`; from a fresh record, two such probes give 50. -/
theorem ema_closed_form_from_positive_witness :
    (HealthChecker.apply_probes exact_arithmetic backend_avg_100 [⟨6, true, 50⟩, ⟨7, true, 50⟩]).avg_rtt_ms
        = 149 / 2 ∧
      (HealthChecker.apply_probes exact_arithmetic (BackendServer.create 1 "10.0.0.1" 9001)
        [⟨6, true, 50⟩, ⟨7, true, 50⟩]).avg_rtt_ms = 50 := by
  have hprobes : ∀ p ∈ [(⟨6, true, 50⟩ : Probe), ⟨7, true, 50⟩],
      p.success = true ∧ p.rtt_ms = 50 := by
    intro p hp
    simp only [List.mem_cons, List.mem_singleton, List.not_mem_nil, or_false] at hp
    rcases hp with rfl | rfl <;> exact ⟨rfl, rfl⟩
  have h1 := (ema_closed_form_from_positive backend_avg_100 50
    [⟨6, true, 50⟩, ⟨7, true, 50⟩] (by norm_num) hprobes).1
    (by simp [backend_avg_100, BackendServer.create])
  have h2 := (ema_closed_form_from_positive (BackendServer.create 1 "10.0.0.1" 9001) 50
    [⟨6, true, 50⟩, ⟨7, true, 50⟩] (by norm_num) hprobes).2 rfl (by simp)
  refine ⟨?_, h2⟩
  rw [h1]
  simp only [backend_avg_100, BackendServer.create, List.length_cons, List.length_nil]
  norm_num

/-! ## Request relay: parse failure -/

/-- C10 (parse failure is pre-selection). When `parse_request` fails on a client connection,
`handle_client` returns after exactly these calls: the failed `parse_request`, one
`send_line` of the error response to the client, and `close` of the client socket. The
strategy object is left as it was (no `select_backend`, so the round-robin cursor is
unchanged), no socket is created or connected, and the metrics log gains no line. -/
theorem parse_failure_is_pre_selection (P : Protocol) (client_sock : Int) (w : World)
    (hfail : (parse_request client_sock w).1 = none) :
    ∃ w1, handle_client P client_sock w = some w1 ∧
      w1.trace = w.trace ++
        [Event.parse_request client_sock,
         Event.send_line client_sock (P.PROTOCOL_ERROR ++ " Malformed request"),
         Event.close client_sock] ∧
      w1.lb_algo = w.lb_algo ∧
      w1.lb_metrics_file = w.lb_metrics_file ∧
      w1.backends = w.backends := by
  have hparsed : parse_request client_sock w =
      (none, w.emit (Event.parse_request client_sock)) := by
    have h2 : (parse_request client_sock w).2 = w.emit (Event.parse_request client_sock) := rfl
    rw [← hfail, ← h2]
  refine ⟨close client_sock
      (send_line client_sock (P.PROTOCOL_ERROR ++ " Malformed request")
        (w.emit (Event.parse_request client_sock))).2, ?_, ?_, rfl, rfl, rfl⟩
  · simp only [handle_client, hparsed]
  · simp [send_line, close, World.emit]

/-- The load balancer of `world_bad_request`, with the round-robin cursor at 2 and one line
in the metrics log, after a request that does not parse: three calls, cursor and log as
before. -/
theorem parse_failure_is_pre_selection_witness :
    (parse_request 7 world_bad_request).1 = none ∧
      (handle_client protocol_tokens 7 world_bad_request).map World.trace =
        some [Event.parse_request 7, Event.send_line 7 "ERROR Malformed request",
          Event.close 7] ∧
      (handle_client protocol_tokens 7 world_bad_request).map World.lb_algo =
        some (LBAlgorithm.round_robin ⟨2⟩) ∧
      (handle_client protocol_tokens 7 world_bad_request).map
        (fun w => w.lb_metrics_file.length) = some 1 := by
  have hfail : (parse_request 7 world_bad_request).1 = none := by
    simp [parse_request, World.answer, world_bad_request, oracle_bad_request]
  obtain ⟨w1, hw1, htrace, halgo, hlog, _⟩ :=
    parse_failure_is_pre_selection protocol_tokens 7 world_bad_request hfail
  refine ⟨hfail, ?_, ?_, ?_⟩
  · rw [hw1, Option.map_some', htrace]
    simp [world_bad_request, protocol_tokens]
  · rw [hw1, Option.map_some', halgo]
    rfl
  · rw [hw1, Option.map_some', hlog]
    rfl

/-! ## Health bookkeeping: the state invariant -/

/-- What a successful probe does, whatever the arithmetic. -/
theorem HealthChecker.update_success (round : ℚ → ℚ) (now : Nat) (backend : BackendServer)
    (rtt_ms : ℚ) :
    (HealthChecker.update_backend_health round now backend true rtt_ms).consecutive_failures
        = 0 ∧
      (HealthChecker.update_backend_health round now backend true rtt_ms).healthy = true ∧
      (HealthChecker.update_backend_health round now backend true rtt_ms).avg_rtt_ms
        = (if backend.avg_rtt_ms = 0 then rtt_ms
           else round (round (round (3 / 10) * rtt_ms)
             + round (round (1 - round (3 / 10)) * backend.avg_rtt_ms))) ∧
      (HealthChecker.update_backend_health round now backend true rtt_ms).id = backend.id ∧
      (HealthChecker.update_backend_health round now backend true rtt_ms).ip = backend.ip ∧
      (HealthChecker.update_backend_health round now backend true rtt_ms).port
        = backend.port := by
  simp only [HealthChecker.update_backend_health, if_true, HealthChecker.RTT_ALPHA]
  split <;> simp [*]

/-- The invariant is kept along any sequence of probes in which no streak of failures
outgrows the counter; `n` is the length of the streak that the record is in. -/
theorem HealthChecker.apply_probes_keeps_invariant (round : ℚ → ℚ)
    (hround : ∀ x, 0 ≤ x → 0 ≤ round x) (halpha : round (3 / 10) ≤ 1) :
    ∀ (probes : List Probe) (backend : BackendServer) (n : Nat),
      backend.consecutive_failures = n → 0 ≤ backend.avg_rtt_ms →
      (backend.healthy = false ↔ 3 ≤ n) →
      (∀ p ∈ probes, p.success = true → 0 ≤ p.rtt_ms) →
      (∀ before run after, probes = before ++ run ++ after →
        (∀ p ∈ run, p.success = false) → run.length ≤ 2147483647) →
      (∀ run after, probes = run ++ after →
        (∀ p ∈ run, p.success = false) → n + run.length ≤ 2147483647) →
      (HealthChecker.apply_probes round backend probes).id = backend.id ∧
        (HealthChecker.apply_probes round backend probes).ip = backend.ip ∧
        (HealthChecker.apply_probes round backend probes).port = backend.port ∧
        0 ≤ (HealthChecker.apply_probes round backend probes).avg_rtt_ms ∧
        0 ≤ (HealthChecker.apply_probes round backend probes).consecutive_failures ∧
        ((HealthChecker.apply_probes round backend probes).healthy = false ↔
          3 ≤ (HealthChecker.apply_probes round backend probes).consecutive_failures) := by
  intro probes
  induction probes with
  | nil =>
    intro backend n hcount havg hflag _ _ _
    refine ⟨rfl, rfl, rfl, havg, ?_, ?_⟩
    · simp only [HealthChecker.apply_probes, hcount]
      omega
    · simp only [HealthChecker.apply_probes, hcount, hflag]
      omega
  | cons p ps ih =>
    intro backend n hcount havg hflag hrtt hstreak hcurrent
    have hstreak1 : ∀ before run after, ps = before ++ run ++ after →
        (∀ q ∈ run, q.success = false) → run.length ≤ 2147483647 := by
      intro before run after hsplit hrun
      exact hstreak (p :: before) run after (by rw [hsplit]; rfl) hrun
    simp only [HealthChecker.apply_probes]
    cases hp : p.success with
    | true =>
      obtain ⟨hc, hh, ha, hid, hip, hport⟩ :=
        HealthChecker.update_success round p.now backend p.rtt_ms
      have hr : 0 ≤ p.rtt_ms := hrtt p (List.mem_cons_self p ps) hp
      have havg1 : 0 ≤ (HealthChecker.update_backend_health round p.now backend true
          p.rtt_ms).avg_rtt_ms := by
        rw [ha]
        split
        · exact hr
        · apply hround
          apply add_nonneg
          · exact hround _ (mul_nonneg (hround _ (by norm_num)) hr)
          · exact hround _ (mul_nonneg (hround _ (by linarith)) havg)
      obtain ⟨b1, b2, b3, b4⟩ := ih
        (HealthChecker.update_backend_health round p.now backend true p.rtt_ms) 0
        (by simpa using hc) havg1 (by simp [hh])
        (fun q hq => hrtt q (List.mem_cons_of_mem p hq)) hstreak1
        (by
          intro run after hsplit hrun
          have := hstreak [p] run after (by rw [hsplit]; rfl) hrun
          omega)
      exact ⟨b1.trans hid, b2.trans hip, b3.trans hport, b4⟩
    | false =>
      obtain ⟨hc, hh, ha, hid, hip, hport⟩ :=
        HealthChecker.update_failure round p.now backend p.rtt_ms
      have hroom : n + 1 ≤ 2147483647 := by
        have := hcurrent [p] ps rfl (by
          intro q hq
          rw [List.mem_singleton.mp hq]
          exact hp)
        simpa using this
      have hc1 : (HealthChecker.update_backend_health round p.now backend false
          p.rtt_ms).consecutive_failures = ((n + 1 : Nat) : Int) := by
        rw [hc, hcount]
        push_cast
        exact wrap_int32_of_range (by omega) (by omega)
      obtain ⟨b1, b2, b3, b4⟩ := ih
        (HealthChecker.update_backend_health round p.now backend false p.rtt_ms) (n + 1)
        hc1 (by rw [ha]; exact havg)
        (by
          rw [hh, hcount]
          have hw : wrap_int32 ((n : Int) + 1) = (n : Int) + 1 :=
            wrap_int32_of_range (by omega) (by omega)
          rw [hw]
          by_cases hthree : 3 ≤ n + 1
          · simp only [hthree, iff_true]
            rw [if_pos (by omega)]
          · simp only [hthree, iff_false]
            rw [if_neg (by omega)]
            intro hdown
            have := hflag.mp hdown
            omega)
        (fun q hq => hrtt q (List.mem_cons_of_mem p hq)) hstreak1
        (by
          intro run after hsplit hrun
          have := hcurrent (p :: run) after (by rw [hsplit]; rfl) (by
            intro q hq
            rcases List.mem_cons.mp hq with rfl | hq
            · exact hp
            · exact hrun q hq)
          simp only [List.length_cons] at this
          omega)
      exact ⟨b1.trans hid, b2.trans hip, b3.trans hport, b4⟩

/-- C13 as stated fails on the code: `2^31` failed probes in a row on a fresh record (a
finite sequence without a successful sample) leave the 32-bit counter at `-2^31`, which is
negative, with `healthy = false` although the counter is below 3. -/
theorem health_state_invariant_breaks_on_wrap :
    (∀ p ∈ List.replicate 2147483648 (⟨0, false, 0⟩ : Probe), p.success = true → 0 ≤ p.rtt_ms) ∧
      ¬ 0 ≤ (HealthChecker.apply_probes to_double (BackendServer.create 3 "10.0.0.3" 9003)
        (List.replicate 2147483648 ⟨0, false, 0⟩)).consecutive_failures ∧
      (HealthChecker.apply_probes to_double (BackendServer.create 3 "10.0.0.3" 9003)
        (List.replicate 2147483648 ⟨0, false, 0⟩)).healthy = false ∧
      ¬ 3 ≤ (HealthChecker.apply_probes to_double (BackendServer.create 3 "10.0.0.3" 9003)
        (List.replicate 2147483648 ⟨0, false, 0⟩)).consecutive_failures := by
  have hfail : ∀ p ∈ List.replicate 2147483648 (⟨0, false, 0⟩ : Probe), p.success = false := by
    intro p hp
    rw [List.eq_of_mem_replicate hp]
  have hcount := HealthChecker.apply_failures_counter to_double
    (List.replicate 2147483648 ⟨0, false, 0⟩) (BackendServer.create 3 "10.0.0.3" 9003)
    (by simp [BackendServer.create]) (by simp [BackendServer.create]) hfail
  have hvalue : (HealthChecker.apply_probes to_double (BackendServer.create 3 "10.0.0.3" 9003)
      (List.replicate 2147483648 ⟨0, false, 0⟩)).consecutive_failures = -2147483648 := by
    rw [hcount, List.length_replicate]
    simp only [BackendServer.create, wrap_int32]
    norm_num
  have hflag := HealthChecker.apply_failures_healthy to_double
    (List.replicate 2147483648 ⟨0, false, 0⟩) (BackendServer.create 3 "10.0.0.3" 9003) 0
    (by simp [BackendServer.create]) (fun _ => by simp [BackendServer.create]) hfail
  rw [List.length_replicate] at hflag
  refine ⟨?_, by rw [hvalue]; norm_num, ?_, by rw [hvalue]; norm_num⟩
  · intro p hp hs
    rw [hfail p hp] at hs
    exact Bool.noConfusion hs
  · cases hb : (HealthChecker.apply_probes to_double (BackendServer.create 3 "10.0.0.3" 9003)
        (List.replicate 2147483648 ⟨0, false, 0⟩)).healthy with
    | false => rfl
    | true => exact absurd (hflag.mp hb) (by norm_num)

/-- C13 (health-state invariant), amended. A backend record reached from its initial state
(`healthy = true`, `avg_rtt_ms = 0`, `consecutive_failures = 0`) by any finite sequence of
`update_backend_health` calls whose successful samples have `rtt_ms >= 0` and in which no more
than `INT_MAX = 2147483647` failed probes follow one another has the `id`, `ip` and `port`
it started with, `avg_rtt_ms >= 0`, `consecutive_failures >= 0`, and `healthy = false` if and
only if `consecutive_failures >= 3`; and a failed probe on it leaves `avg_rtt_ms`
unchanged. -/
theorem health_state_invariant (backend : BackendServer) (probes : List Probe)
    (hhealthy : backend.healthy = true) (havg : backend.avg_rtt_ms = 0)
    (hzero : backend.consecutive_failures = 0)
    (hrtt : ∀ p ∈ probes, p.success = true → 0 ≤ p.rtt_ms)
    (hstreak : ∀ before run after, probes = before ++ run ++ after →
      (∀ p ∈ run, p.success = false) → run.length ≤ 2147483647) :
    (HealthChecker.apply_probes to_double backend probes).id = backend.id ∧
      (HealthChecker.apply_probes to_double backend probes).ip = backend.ip ∧
      (HealthChecker.apply_probes to_double backend probes).port = backend.port ∧
      0 ≤ (HealthChecker.apply_probes to_double backend probes).avg_rtt_ms ∧
      0 ≤ (HealthChecker.apply_probes to_double backend probes).consecutive_failures ∧
      ((HealthChecker.apply_probes to_double backend probes).healthy = false ↔
        3 ≤ (HealthChecker.apply_probes to_double backend probes).consecutive_failures) ∧
      ∀ (now : Nat) (rtt_ms : ℚ),
        (HealthChecker.update_backend_health to_double now
          (HealthChecker.apply_probes to_double backend probes) false rtt_ms).avg_rtt_ms =
          (HealthChecker.apply_probes to_double backend probes).avg_rtt_ms := by
  obtain ⟨hid, hip, hport, h1, h2, h3⟩ :=
    HealthChecker.apply_probes_keeps_invariant to_double (fun x hx => to_double_nonneg hx)
      (by rw [to_double_three_tenths]; norm_num) probes backend 0
      (by simpa using hzero) (le_of_eq havg.symm) (by simp [hhealthy])
      hrtt hstreak
      (by
        intro run after hsplit hrun
        have := hstreak [] run after (by rw [hsplit]; rfl) hrun
        omega)
  exact ⟨hid, hip, hport, h1, h2, h3, fun now rtt_ms =>
    (HealthChecker.update_failure to_double now _ rtt_ms).2.2.1⟩

/-- Scenario D on a fresh record of backend 3: a success with sample 20, four failures, then
a success with sample 10. After the first four probes the record is unhealthy with counter 3
and average 20; after all six it is healthy again with counter 0, and it is still
backend 3. -/
theorem health_state_invariant_witness :
    (HealthChecker.apply_probes to_double (BackendServer.create 3 "10.0.0.3" 9003)
        [⟨1, true, 20⟩, ⟨2, false, 0⟩, ⟨3, false, 0⟩, ⟨4, false, 0⟩]).healthy = false ∧
      (HealthChecker.apply_probes to_double (BackendServer.create 3 "10.0.0.3" 9003)
        [⟨1, true, 20⟩, ⟨2, false, 0⟩, ⟨3, false, 0⟩, ⟨4, false, 0⟩]).consecutive_failures
          = 3 ∧
      (HealthChecker.apply_probes to_double (BackendServer.create 3 "10.0.0.3" 9003)
        [⟨1, true, 20⟩, ⟨2, false, 0⟩, ⟨3, false, 0⟩, ⟨4, false, 0⟩]).avg_rtt_ms = 20 ∧
      (HealthChecker.apply_probes to_double (BackendServer.create 3 "10.0.0.3" 9003)
        [⟨1, true, 20⟩, ⟨2, false, 0⟩, ⟨3, false, 0⟩, ⟨4, false, 0⟩, ⟨5, false, 0⟩,
          ⟨6, true, 10⟩]).id = 3 ∧
      (HealthChecker.apply_probes to_double (BackendServer.create 3 "10.0.0.3" 9003)
        [⟨1, true, 20⟩, ⟨2, false, 0⟩, ⟨3, false, 0⟩, ⟨4, false, 0⟩, ⟨5, false, 0⟩,
          ⟨6, true, 10⟩]).healthy = true ∧
      0 ≤ (HealthChecker.apply_probes to_double (BackendServer.create 3 "10.0.0.3" 9003)
        [⟨1, true, 20⟩, ⟨2, false, 0⟩, ⟨3, false, 0⟩, ⟨4, false, 0⟩, ⟨5, false, 0⟩,
          ⟨6, true, 10⟩]).avg_rtt_ms := by
  have hrtt4 : ∀ p ∈ [(⟨1, true, 20⟩ : Probe), ⟨2, false, 0⟩, ⟨3, false, 0⟩, ⟨4, false, 0⟩],
      p.success = true → 0 ≤ p.rtt_ms := by
    intro p hp _
    simp only [List.mem_cons, List.mem_singleton, List.not_mem_nil, or_false] at hp
    rcases hp with rfl | rfl | rfl | rfl <;> norm_num
  have hrtt6 : ∀ p ∈ [(⟨1, true, 20⟩ : Probe), ⟨2, false, 0⟩, ⟨3, false, 0⟩, ⟨4, false, 0⟩,
      ⟨5, false, 0⟩, ⟨6, true, 10⟩], p.success = true → 0 ≤ p.rtt_ms := by
    intro p hp _
    simp only [List.mem_cons, List.mem_singleton, List.not_mem_nil, or_false] at hp
    rcases hp with rfl | rfl | rfl | rfl | rfl | rfl <;> norm_num
  have hshort : ∀ (probes : List Probe), probes.length ≤ 6 →
      ∀ before run after, probes = before ++ run ++ after →
        (∀ p ∈ run, p.success = false) → run.length ≤ 2147483647 := by
    intro probes hlen before run after hsplit _
    have := congrArg List.length hsplit
    simp only [List.length_append] at this
    omega
  have h4 := health_state_invariant (BackendServer.create 3 "10.0.0.3" 9003) _ rfl rfl rfl
    hrtt4 (hshort _ (by decide))
  have h6 := health_state_invariant (BackendServer.create 3 "10.0.0.3" 9003) _ rfl rfl rfl
    hrtt6 (hshort _ (by decide))
  have hc4 : (HealthChecker.apply_probes to_double (BackendServer.create 3 "10.0.0.3" 9003)
      [⟨1, true, 20⟩, ⟨2, false, 0⟩, ⟨3, false, 0⟩, ⟨4, false, 0⟩]).consecutive_failures
        = 3 := by
    simp [HealthChecker.apply_probes, HealthChecker.update_backend_health,
      BackendServer.create, HealthChecker.MAX_CONSECUTIVE_FAILURES, wrap_int32]
  refine ⟨h4.2.2.2.2.2.1.mpr (by rw [hc4]), hc4, ?_, h6.1, ?_, h6.2.2.2.1⟩
  · simp [HealthChecker.apply_probes, HealthChecker.update_backend_health,
      BackendServer.create, HealthChecker.MAX_CONSECUTIVE_FAILURES, wrap_int32]
  · simp [HealthChecker.apply_probes, HealthChecker.update_backend_health,
      BackendServer.create, HealthChecker.MAX_CONSECUTIVE_FAILURES, wrap_int32]

/-! ## Health bookkeeping: the averages stay far below `DBL_MAX` -/

theorem to_double_alpha_bound :
    to_double (to_double (3 / 10) * 2 ^ 44) = 5404319552844595 / 2 ^ 10 := by
  rw [to_double_three_tenths]
  have h := to_double_eq (x := 5404319552844595 / 2 ^ 54 * 2 ^ 44) (e := 42)
    (m := 5404319552844595) (by norm_num)
    (binade_eq (by norm_num [abs_of_pos]) (by norm_num [abs_of_pos])) (by norm_num)
    (round_half_even_of_near _ _ (by norm_num) (by norm_num))
  rw [h]
  norm_num

theorem to_double_beta_bound :
    to_double (to_double (7 / 10) * 2 ^ 44) = 3152519739159347 / 2 ^ 8 := by
  rw [to_double_seven_tenths]
  have h := to_double_eq (x := 3152519739159347 / 2 ^ 52 * 2 ^ 44) (e := 43)
    (m := 6305039478318694) (by norm_num)
    (binade_eq (by norm_num [abs_of_pos]) (by norm_num [abs_of_pos])) (by norm_num)
    (round_half_even_of_near _ _ (by norm_num) (by norm_num))
  rw [h]
  norm_num

theorem to_double_bound : to_double (2 ^ 44) = 2 ^ 44 := by
  have h := to_double_eq (x := 2 ^ 44) (e := 44) (m := 4503599627370496) (by norm_num)
    (binade_eq (by norm_num [abs_of_pos]) (by norm_num [abs_of_pos])) (by norm_num)
    (round_half_even_of_near _ _ (by norm_num) (by norm_num))
  rw [h]
  norm_num

/-- One call of `update_backend_health`, in double arithmetic, keeps the average within
`0 .. 2^44` when the sample of a successful probe lies there. -/
theorem HealthChecker.update_keeps_average_bounded (now : Nat) (backend : BackendServer)
    (success : Bool) (rtt_ms : ℚ)
    (hrtt : success = true → 0 ≤ rtt_ms ∧ rtt_ms ≤ 2 ^ 44)
    (hlow : 0 ≤ backend.avg_rtt_ms) (hhigh : backend.avg_rtt_ms ≤ 2 ^ 44) :
    0 ≤ (HealthChecker.update_backend_health to_double now backend success rtt_ms).avg_rtt_ms ∧
      (HealthChecker.update_backend_health to_double now backend success rtt_ms).avg_rtt_ms
        ≤ 2 ^ 44 := by
  cases success with
  | false =>
    rw [(HealthChecker.update_failure to_double now backend rtt_ms).2.2.1]
    exact ⟨hlow, hhigh⟩
  | true =>
    obtain ⟨hr0, hr1⟩ := hrtt rfl
    rw [(HealthChecker.update_success to_double now backend rtt_ms).2.2.1]
    split
    · exact ⟨hr0, hr1⟩
    · rw [to_double_one_sub_alpha]
      have ha0 : 0 ≤ to_double (3 / 10) := to_double_nonneg (by norm_num)
      have hb0 : 0 ≤ to_double (7 / 10) := to_double_nonneg (by norm_num)
      have h1 : to_double (to_double (3 / 10) * rtt_ms) ≤ 5404319552844595 / 2 ^ 10 := by
        rw [← to_double_alpha_bound]
        exact to_double_mono (mul_nonneg ha0 hr0) (mul_le_mul_of_nonneg_left hr1 ha0)
      have h2 : to_double (to_double (7 / 10) * backend.avg_rtt_ms)
          ≤ 3152519739159347 / 2 ^ 8 := by
        rw [← to_double_beta_bound]
        exact to_double_mono (mul_nonneg hb0 hlow) (mul_le_mul_of_nonneg_left hhigh hb0)
      have h3 : 0 ≤ to_double (to_double (3 / 10) * rtt_ms) :=
        to_double_nonneg (mul_nonneg ha0 hr0)
      have h4 : 0 ≤ to_double (to_double (7 / 10) * backend.avg_rtt_ms) :=
        to_double_nonneg (mul_nonneg hb0 hlow)
      refine ⟨to_double_nonneg (add_nonneg h3 h4), ?_⟩
      rw [← to_double_bound]
      apply to_double_mono (add_nonneg h3 h4)
      have hsum : (5404319552844595 : ℚ) / 2 ^ 10 + 3152519739159347 / 2 ^ 8 ≤ 2 ^ 44 := by
        norm_num
      linarith

/-- The averages of the records that the program holds stay below `DBL_MAX`, the seed of the
least-response-time scan: a record built by the constructor and updated by any sequence of
probes whose successful samples lie in `0 .. 2^44` milliseconds (a difference of two
readings of the steady clock, which counts 64-bit nanoseconds, is below `9.3e12` ms) has
its average in `0 .. 2^44`. -/
theorem HealthChecker.average_below_max (server_id : Int) (server_ip : String)
    (server_port : Int) (probes : List Probe)
    (hrtt : ∀ p ∈ probes, p.success = true → 0 ≤ p.rtt_ms ∧ p.rtt_ms ≤ 2 ^ 44) :
    0 ≤ (HealthChecker.apply_probes to_double
        (BackendServer.create server_id server_ip server_port) probes).avg_rtt_ms ∧
      (HealthChecker.apply_probes to_double
        (BackendServer.create server_id server_ip server_port) probes).avg_rtt_ms ≤ 2 ^ 44 ∧
      (HealthChecker.apply_probes to_double
        (BackendServer.create server_id server_ip server_port) probes).avg_rtt_ms
        < DBL_MAX := by
  have hgen : ∀ (probes : List Probe) (backend : BackendServer),
      (∀ p ∈ probes, p.success = true → 0 ≤ p.rtt_ms ∧ p.rtt_ms ≤ 2 ^ 44) →
      0 ≤ backend.avg_rtt_ms → backend.avg_rtt_ms ≤ 2 ^ 44 →
      0 ≤ (HealthChecker.apply_probes to_double backend probes).avg_rtt_ms ∧
        (HealthChecker.apply_probes to_double backend probes).avg_rtt_ms ≤ 2 ^ 44 := by
    intro probes
    induction probes with
    | nil =>
      intro backend _ h0 h1
      exact ⟨h0, h1⟩
    | cons p ps ih =>
      intro backend hp h0 h1
      obtain ⟨a0, a1⟩ := HealthChecker.update_keeps_average_bounded p.now backend p.success
        p.rtt_ms (hp p (List.mem_cons_self p ps)) h0 h1
      exact ih _ (fun q hq => hp q (List.mem_cons_of_mem p hq)) a0 a1
  obtain ⟨h0, h1⟩ := hgen probes (BackendServer.create server_id server_ip server_port) hrtt
    (by simp [BackendServer.create]) (by simp [BackendServer.create])
  refine ⟨h0, h1, lt_of_le_of_lt h1 ?_⟩
  simp only [DBL_MAX]
  norm_num

/-! ## Algorithm names -/

/-- C12 (algorithm-name parsing). For every string `s`, `parse_lb_algorithm s` returns
`ROUND_ROBIN` exactly when the lower-cased `s` is one of `rr`, `roundrobin`, `round_robin`,
returns `LEAST_RESPONSE_TIME` exactly when it is one of `lrt`, `least_response_time`,
`leastresponsetime`, and throws for every other string (the message quotes `s` as given);
two strings with the same lower-cased form get the same value or both throw, so matching
is case-insensitive. -/
theorem parse_lb_algorithm_by_lower_case (s : String) :
    (parse_lb_algorithm s = .ok .ROUND_ROBIN ↔
        lower_cased s ∈ ["rr", "roundrobin", "round_robin"]) ∧
      (parse_lb_algorithm s = .ok .LEAST_RESPONSE_TIME ↔
        lower_cased s ∈ ["lrt", "least_response_time", "leastresponsetime"]) ∧
      (lower_cased s ∉ ["rr", "roundrobin", "round_robin", "lrt", "least_response_time",
          "leastresponsetime"] →
        parse_lb_algorithm s =
          .error ("Invalid LB algorithm: " ++ s ++ " (must be rr or lrt)")) ∧
      ∀ t : String, lower_cased t = lower_cased s →
        (parse_lb_algorithm t).toOption = (parse_lb_algorithm s).toOption := by
  refine ⟨?_, ?_, ?_, ?_⟩
  · simp only [parse_lb_algorithm, List.mem_cons, List.mem_singleton, List.not_mem_nil,
      or_false]
    split_ifs with h1 h2
    · simp [h1]
    · simp [h1]
    · simp [h1]
  · simp only [parse_lb_algorithm, List.mem_cons, List.mem_singleton, List.not_mem_nil,
      or_false]
    split_ifs with h1 h2
    · have hno : ¬ (lower_cased s = "lrt" ∨ lower_cased s = "least_response_time" ∨
          lower_cased s = "leastresponsetime") := by
        rcases h1 with h | h | h <;> rw [h] <;> decide
      simp [hno]
    · simp [h2]
    · simp [h2]
  · intro hnot
    simp only [List.mem_cons, List.mem_singleton, List.not_mem_nil, or_false, not_or] at hnot
    obtain ⟨a, b, c, d, e, f⟩ := hnot
    simp [parse_lb_algorithm, a, b, c, d, e, f]
  · intro t ht
    simp only [parse_lb_algorithm, ht]
    split_ifs <;> rfl

/-- The spellings `RoundRobin` and `LRT` are accepted in any case, and the empty string and
`random` are rejected. -/
theorem parse_lb_algorithm_by_lower_case_witness :
    parse_lb_algorithm "RoundRobin" = .ok .ROUND_ROBIN ∧
      parse_lb_algorithm "LRT" = .ok .LEAST_RESPONSE_TIME ∧
      parse_lb_algorithm "" = .error "Invalid LB algorithm:  (must be rr or lrt)" ∧
      parse_lb_algorithm "random" =
        .error "Invalid LB algorithm: random (must be rr or lrt)" :=
  ⟨(parse_lb_algorithm_by_lower_case "RoundRobin").1.mpr (by decide),
   (parse_lb_algorithm_by_lower_case "LRT").2.1.mpr (by decide),
   (parse_lb_algorithm_by_lower_case "").2.2.1 (by decide),
   (parse_lb_algorithm_by_lower_case "random").2.2.1 (by decide)⟩

/-! ## Configuration loader: what the loops record -/

end LoadBalancer
